import Mathlib

/-!
Shallow embedding of the `Neo4jRepository` class from `realization/func.py`
(ontology store over a Neo4j property graph).

The graph database is modelled as an explicit state: a list of nodes
(each with a single label and an open property bag of scalar values),
a list of arcs (directed, typed, identified by a store-assigned numeric
element id drawn from a counter), a seed for generated uris, and two
instrumentation counters recording how many edges have been created and
deleted so far (used to state the "zero edge churn" claims).

Modelling conventions (documented divergences, all invisible on graphs
that satisfy `Wf` below, which captures the invariants every reachable
Neo4j state has: string-valued unique `uri` properties, unique element
ids below the id counter, and arc endpoints backed by nodes):
  * arcs reference their endpoints by the endpoint's `uri` property
    rather than by entity identity;
  * `Result.single()` of the Python driver returns the first record and
    `None` on an empty result (non-strict mode, as the driver does);
  * the random uri generator is determinised by a counter.
-/

namespace Onto

/-- Scalar property value stored in the graph (a Python scalar). -/
inductive Value where
  | str (s : String)
  | int (n : Int)
  | bool (b : Bool)
  | null
deriving DecidableEq, Repr

/-- Python `str()` of a stored value. -/
def Value.toStr : Value → String
  | .str s => s
  | .int n => toString n
  | .bool b => if b then "True" else "False"
  | .null => "None"

/-- Python truthiness of a stored value. -/
def Value.truthy : Value → Bool
  | .str s => s != ""
  | .int n => n != 0
  | .bool b => b
  | .null => false

/-- Look a key up in a property bag (first binding wins, as in a dict). -/
def getProp (ps : List (String × Value)) (k : String) : Option Value :=
  (ps.find? (fun kv => kv.1 == k)).map (fun kv => kv.2)

/-- Insert or overwrite one key in a property bag, keeping its position
(Python dict assignment). -/
def setProp (ps : List (String × Value)) (k : String) (v : Value) : List (String × Value) :=
  if ps.any (fun kv => kv.1 == k) then ps.map (fun kv => if kv.1 == k then (k, v) else kv)
  else ps ++ [(k, v)]

/-- `base.update(delta)` on Python dicts / `SET n += $props` in Cypher:
supplied keys overwrite, others are untouched. -/
def mergeProps (base delta : List (String × Value)) : List (String × Value) :=
  delta.foldl (fun ps kv => setProp ps kv.1 kv.2) base

/-- A graph node: one label plus an open property bag. -/
structure Node where
  label : String
  props : List (String × Value)
deriving DecidableEq, Repr

/-- The node's `uri` property value. -/
def Node.uriVal (n : Node) : Option Value := getProp n.props "uri"

/-- Does the node match the Cypher pattern `(n \x7buri: $u\x7d)` (value equality
against a string parameter)? -/
def Node.matchesUri (n : Node) (u : String) : Bool := n.uriVal == some (.str u)

/-- `str(props.get(k, ""))` as used by `collect_node`. -/
def Node.strProp (n : Node) (k : String) : String :=
  ((getProp n.props k).getD (.str "")).toStr

/-- The node's uri when it is a string property, `none` otherwise. -/
def Node.uriKey (n : Node) : Option String :=
  match n.uriVal with
  | some (.str u) => some u
  | _ => none

/-- A directed typed arc, identified by a store-assigned element id. -/
structure Arc where
  id : Nat
  type : String
  fromUri : String
  toUri : String
deriving DecidableEq, Repr

/-- The whole store state. `arcCreations` / `arcDeletions` count edge
creations and deletions performed so far (instrumentation). -/
structure Graph where
  nodes : List Node
  arcs : List Arc
  nextId : Nat
  uriSeed : Nat
  arcCreations : Nat
  arcDeletions : Nat
deriving DecidableEq, Repr

/-- The `TNode` dict returned by the repository (projection of a node). -/
structure TNode where
  uri : String
  title : String
  description : String
  label : String
deriving DecidableEq, Repr

/-- The `TArc` dict returned by the repository. -/
structure TArc where
  id : Nat
  uri : String
  node_uri_from : String
  node_uri_to : String
deriving DecidableEq, Repr

/-- Python exceptions surfaced by the repository. -/
inductive Err where
  | validation (msg : String)
  | runtime (msg : String)
deriving DecidableEq, Repr

/-- `collect_node`: project a node to the `TNode` dict. -/
def collect_node (n : Node) : TNode :=
  ⟨n.strProp "uri", n.strProp "title", n.strProp "description", n.label⟩

/-- `get_node_by_uri`: `MATCH (n \x7buri: $uri\x7d) RETURN n LIMIT 1`. -/
def get_node_by_uri (g : Graph) (uri : String) : Option TNode :=
  (g.nodes.find? (fun n => n.matchesUri uri)).map collect_node

/-- `get_class`: the node at `uri` when it carries label `Class`. -/
def get_class (g : Graph) (uri : String) : Option TNode :=
  match get_node_by_uri g uri with
  | some n => if n.label == "Class" then some n else none
  | none => none

/-- `get_object`: the node at `uri` when it carries label `Object`. -/
def get_object (g : Graph) (uri : String) : Option TNode :=
  match get_node_by_uri g uri with
  | some n => if n.label == "Object" then some n else none
  | none => none

/-- `generate_random_string`, determinised by the seed counter. -/
def freshUri (g : Graph) : String × Graph :=
  ("http://ontology.com/gen" ++ toString g.uriSeed, {g with uriSeed := g.uriSeed + 1})

/-- The property bag built by `create_node`: uri first, then description
and title when present, then every other supplied key (Python dict
construction order). -/
def buildCreateProps (uri : String) (params : List (String × Value)) :
    List (String × Value) :=
  let props0 : List (String × Value) := [("uri", .str uri)]
  let props1 := match getProp params "description" with
    | some v => setProp props0 "description" v
    | none => props0
  let props2 := match getProp params "title" with
    | some v => setProp props1 "title" v
    | none => props1
  mergeProps props2 (params.filter (fun kv => kv.1 != "label" && kv.1 != "uri"))

/-- `create_node`: requires a `label` entry, takes the supplied `uri` when
truthy and generates one otherwise, builds the property bag exactly as the
Python does, and appends the new node. -/
def create_node (g : Graph) (params : List (String × Value)) : Except Err TNode × Graph :=
  let label := ((getProp params "label").getD (.str "")).toStr
  if label == "" then (.error (.validation "label is required"), g)
  else
    let ug : String × Graph :=
      match getProp params "uri" with
      | some v => if v.truthy then (v.toStr, g) else freshUri g
      | none => freshUri g
    let node : Node := ⟨label, buildCreateProps ug.1 params⟩
    (.ok (collect_node node), {ug.2 with nodes := ug.2.nodes ++ [node]})

/-- `create_arc`: both endpoints must exist; creates one arc with a fresh
element id (and bumps the edge-creation counter). -/
def create_arc (g : Graph) (node1_uri node2_uri : String) (rel_type : String) :
    Except Err TArc × Graph :=
  let rt := if rel_type == "" then "RELATED" else rel_type
  if (g.nodes.any (fun n => n.matchesUri node1_uri)) &&
     (g.nodes.any (fun n => n.matchesUri node2_uri)) then
    (.ok ⟨g.nextId, rt, node1_uri, node2_uri⟩,
     {g with arcs := g.arcs ++ [⟨g.nextId, rt, node1_uri, node2_uri⟩],
             nextId := g.nextId + 1,
             arcCreations := g.arcCreations + 1})
  else (.error (.runtime "Failed to create arc"), g)

/-- `delete_node_by_uri`: `MATCH (n \x7buri: $uri\x7d) DETACH DELETE n`; removes
every matching node together with all arcs touching that uri, reporting
whether anything was deleted. -/
def delete_node_by_uri (g : Graph) (uri : String) : Bool × Graph :=
  if g.nodes.any (fun n => n.matchesUri uri) then
    let remArcs := (g.arcs.filter (fun a => a.fromUri == uri || a.toUri == uri)).length
    (true, {g with nodes := g.nodes.filter (fun n => !(n.matchesUri uri)),
                   arcs := g.arcs.filter (fun a => !(a.fromUri == uri || a.toUri == uri)),
                   arcDeletions := g.arcDeletions + remArcs})
  else (false, g)

/-- `delete_arc_by_id`: delete the arc(s) with the given element id,
reporting whether anything was deleted (and bumping the deletion counter). -/
def delete_arc_by_id (g : Graph) (id : Nat) : Bool × Graph :=
  let rem := (g.arcs.filter (fun a => a.id == id)).length
  (rem != 0, {g with arcs := g.arcs.filter (fun a => a.id != id),
                     arcDeletions := g.arcDeletions + rem})

/-- `update_node`: empty delta (or a delta containing only `uri`/`label`)
reads the node back unchanged; otherwise `SET n += $props` merges the
filtered delta into every matching node and the first updated record is
returned (`None` when nothing matched). -/
def update_node (g : Graph) (uri : String) (params : List (String × Value)) :
    Except Err (Option TNode) × Graph :=
  if params.isEmpty then (.ok (get_node_by_uri g uri), g)
  else
    let props := params.filter (fun kv => kv.1 != "uri" && kv.1 != "label")
    if props.isEmpty then (.ok (get_node_by_uri g uri), g)
    else
      match g.nodes.find? (fun n => n.matchesUri uri) with
      | none => (.ok none, g)
      | some n =>
        (.ok (some (collect_node {n with props := mergeProps n.props props})),
         {g with nodes := g.nodes.map (fun m => if m.matchesUri uri then
            {m with props := mergeProps m.props props} else m)})

/-! ### Reflexive-transitive closure along SUBCLASSOF

The Cypher patterns `-[:SUBCLASSOF*0..]->` are modelled by an iterated
one-step expansion with a deduplicating union; iterating it one more time
than there are arcs is shown below to reach the fixed point, i.e. the
reflexive-transitive closure, on every graph, cyclic ones included. -/

/-- One forward SUBCLASSOF step from a uri (towards parents). -/
def subStep (g : Graph) (u : String) : List String :=
  (g.arcs.filter (fun a => a.type == "SUBCLASSOF" && a.fromUri == u)).map (fun a => a.toUri)

/-- One backward SUBCLASSOF step from a uri (towards children). -/
def revStep (g : Graph) (u : String) : List String :=
  (g.arcs.filter (fun a => a.type == "SUBCLASSOF" && a.toUri == u)).map (fun a => a.fromUri)

/-- One round of expansion: the frontier together with every one-step
successor, deduplicated. -/
def expandWith (next : String → List String) (s : List String) : List String :=
  (s ++ s.flatMap next).dedup

/-- `bound`-fold expansion of the singleton frontier. -/
def reachList (next : String → List String) (bound : Nat) (u : String) : List String :=
  (expandWith next)^[bound] [u]

/-- Uris reachable from `u` along forward SUBCLASSOF edges
(`-[:SUBCLASSOF*0..]->`), the class itself included. -/
def ancUris (g : Graph) (u : String) : List String :=
  reachList (subStep g) (g.arcs.length + 1) u

/-- Uris from which `u` is reachable along SUBCLASSOF edges. -/
def descReach (g : Graph) (u : String) : List String :=
  reachList (revStep g) (g.arcs.length + 1) u

/-! ### Signature resolution -/

/-- One resolved datatype property. -/
structure Param where
  title : String
  uri : String
deriving DecidableEq, Repr

/-- One resolved object property. -/
structure ObjParam where
  title : String
  uri : String
  target_class_uri : String
  relation_direction : Int
deriving DecidableEq, Repr

/-- The resolved signature of a class. -/
structure Signature where
  params : List Param
  obj_params : List ObjParam
deriving DecidableEq, Repr

/-- Is there an arc of the given type between the given uris? -/
def hasArc (g : Graph) (ty fromU toU : String) : Bool :=
  g.arcs.any (fun a => a.type == ty && a.fromUri == fromU && a.toUri == toU)

/-- Apply a check to the node's string uri, `false` when it has none. -/
def keyedCheck (f : String → Bool) (n : Node) : Bool :=
  (n.uriKey.map f).getD false

/-- Does property node `d` have a DOMAIN arc to some Class node whose uri
lies in the ancestor closure `anc`? (The `s:Class` part of both signature
queries.) -/
def domainHits (g : Graph) (anc : List String) (d : Node) : Bool :=
  g.nodes.any (fun s => s.label == "Class" &&
    keyedCheck (fun su => keyedCheck (fun du =>
      anc.contains su && hasArc g "DOMAIN" du su) d) s)

/-- Is there a RANGE arc from property node `d` to node `r`? -/
def rangeArc (g : Graph) (d r : Node) : Bool :=
  keyedCheck (fun du => keyedCheck (fun ru => hasArc g "RANGE" du ru) r) d

/-- Rows of the datatype-property signature query (`RETURN DISTINCT d`). -/
def sigParams (g : Graph) (anc : List String) : List Param :=
  (g.nodes.filter (fun d => d.label == "DatatypeProperty" && domainHits g anc d)).map
    (fun d => ⟨d.strProp "title", d.strProp "uri"⟩)

/-- Rows of the object-property signature query (`RETURN DISTINCT d, r`
with `(d)-[:RANGE]->(r:Class)`). -/
def sigObjParams (g : Graph) (anc : List String) : List ObjParam :=
  g.nodes.flatMap (fun d =>
    if d.label == "ObjectProperty" && domainHits g anc d then
      (g.nodes.filter (fun r => r.label == "Class" && rangeArc g d r)).map
        (fun r => ⟨d.strProp "title", d.strProp "uri", r.strProp "uri", 1⟩)
    else [])

/-- `collect_signature`: fails when `class_uri` is not a Class, otherwise
collects the datatype and object properties domained on any class in the
reflexive-transitive SUBCLASSOF closure. -/
def collect_signature (g : Graph) (class_uri : String) : Except Err Signature :=
  if (get_class g class_uri).isNone then .error (.validation "Class not found")
  else
    .ok ⟨sigParams g (ancUris g class_uri), sigObjParams g (ancUris g class_uri)⟩

/-! ### Cascading class deletion -/

/-- `distinct desc.uri` for `MATCH (desc:Class)-[:SUBCLASSOF*0..]->(c \x7buri: $uri\x7d)`:
the uris of Class nodes from which `uri` is reachable. -/
def descClassUris (g : Graph) (uri : String) : List String :=
  ((g.nodes.filter (fun n => n.label == "Class" &&
      (match n.uriVal with
       | some (.str x) => (descReach g uri).contains x
       | _ => false))).map (fun n => n.strProp "uri")).dedup

/-- Rows of `MATCH (o:Object)-[:INSTANCEOF]->(c:Class WHERE c.uri IN $class_uris)
RETURN o.uri`. -/
def instanceUris (g : Graph) (class_uris : List String) : List String :=
  g.arcs.flatMap (fun a =>
    if a.type == "INSTANCEOF" && class_uris.contains a.toUri then
      match g.nodes.find? (fun o => o.matchesUri a.fromUri),
            g.nodes.find? (fun c => c.matchesUri a.toUri) with
      | some o, some c =>
        if o.label == "Object" && c.label == "Class" then [o.strProp "uri"] else []
      | _, _ => []
    else [])

/-- Sequential `delete_node_by_uri` over a list of uris. -/
def foldDeleteNodes (us : List String) (g : Graph) : Graph :=
  us.foldl (fun h u => (delete_node_by_uri h u).2) g

/-- `delete_class`: computes the inclusive descendant closure; returns
`false` untouched when it is empty, otherwise detach-deletes every
instance of any class in the closure and then every class in the closure. -/
def delete_class (g : Graph) (uri : String) : Bool × Graph :=
  let desc_uris := descClassUris g uri
  if desc_uris.isEmpty then (false, g)
  else (true, foldDeleteNodes desc_uris (foldDeleteNodes (instanceUris g desc_uris) g))

/-! ### Object creation and update (reconciliation) -/

/-- One desired relationship entry
(`\x7brelation_uri, obj_uri, direction\x7d`). -/
structure DesiredRel where
  relation_uri : String
  obj_uri : String
  direction : Int
deriving DecidableEq, Repr

/-- The relation type used for a desired relationship: the title of the
node at `relation_uri`, falling back to `RELATED`. -/
def relTitleOf (g : Graph) (ru : String) : String :=
  match get_node_by_uri g ru with
  | some n => n.title
  | none => "RELATED"

/-- The `(relation_uri, obj_uri, direction)` triples of a desired list
(the reconciler's `new_rels_set`). -/
def opKeys (ops : List DesiredRel) : List (String × String × Int) :=
  ops.map (fun op => (op.relation_uri, op.obj_uri, op.direction))

/-- The title/description delta assembled by `update_object`. -/
def baseParams (title? desc? : Option String) : List (String × Value) :=
  (match title? with
   | some t => [("title", Value.str t)]
   | none => []) ++
  (match desc? with
   | some d => [("description", Value.str d)]
   | none => [])

/-- First validation error of one desired relationship entry: unknown
relation uri, then missing target node. -/
def opError (g : Graph) (obj_param_uris : List String) (op : DesiredRel) : Option Err :=
  if !(obj_param_uris.contains op.relation_uri) then
    some (.validation ("Unknown object property " ++ op.relation_uri))
  else if (get_node_by_uri g op.obj_uri).isNone then
    some (.validation ("Target object not found: " ++ op.obj_uri))
  else none

/-- One edge-creation step of `create_object`'s relationship loop. -/
def createObjArcStep (uri : String) (acc : Except Err Unit × Graph) (op : DesiredRel) :
    Except Err Unit × Graph :=
  match acc with
  | (.error e, h) => (.error e, h)
  | (.ok _, h) =>
    let relTitle := relTitleOf h op.relation_uri
    match (if op.direction == 1 then create_arc h uri op.obj_uri relTitle
           else create_arc h op.obj_uri uri relTitle) with
    | (.ok _, h') => (.ok (), h')
    | (.error e, h') => (.error e, h')

/-- `create_object`: class lookup, signature resolution, full validation
of scalar properties and desired relationships, then node creation, the
INSTANCEOF arc, and one arc per desired relationship. -/
def create_object (g : Graph) (class_uri title description : String)
    (properties : List (String × Value)) (object_properties : List DesiredRel) :
    Except Err TNode × Graph :=
  if (get_class g class_uri).isNone then (.error (.validation "Class not found"), g)
  else
    match collect_signature g class_uri with
    | .error e => (.error e, g)
    | .ok sig =>
      let param_uris := sig.params.map (fun p => p.uri)
      match properties.find? (fun kv => !(param_uris.contains kv.1)) with
      | some kv => (.error (.validation ("Unknown property " ++ kv.1)), g)
      | none =>
        let obj_param_uris := sig.obj_params.map (fun p => p.uri)
        match object_properties.findSome? (opError g obj_param_uris) with
        | some e => (.error e, g)
        | none =>
          let ug := freshUri g
          let uri := ug.1
          let params := mergeProps
            [("label", .str "Object"), ("title", .str title),
             ("description", .str description), ("uri", .str uri)] properties
          match create_node ug.2 params with
          | (.error e, g2) => (.error e, g2)
          | (.ok node, g2) =>
            match create_arc g2 uri class_uri "INSTANCEOF" with
            | (.error e, g3) => (.error e, g3)
            | (.ok _, g3) =>
              match object_properties.foldl (createObjArcStep uri) (.ok (), g3) with
              | (.error e, h) => (.error e, h)
              | (.ok _, h) => (.ok node, h)

/-- One row of the current-relationship query of `update_object`:
relation type, the other endpoint's uri, the arc's element id, and the
direction as seen from the object. -/
structure CurRel where
  relType : String
  targetUri : String
  arcId : Nat
  direction : Int
deriving DecidableEq, Repr

/-- `MATCH (o \x7buri: $uri\x7d)-[r]-(target) WHERE target:Object ...`: every arc
touching the object whose other endpoint is an Object-labeled node,
with direction `1` when the object is the start node and `-1` otherwise. -/
def currentRels (g : Graph) (uri : String) : List CurRel :=
  g.arcs.filterMap (fun a =>
    if a.fromUri == uri then
      match g.nodes.find? (fun t => t.matchesUri a.toUri) with
      | some t => if t.label == "Object" then some ⟨a.type, a.toUri, a.id, 1⟩ else none
      | none => none
    else if a.toUri == uri then
      match g.nodes.find? (fun t => t.matchesUri a.fromUri) with
      | some t => if t.label == "Object" then some ⟨a.type, a.fromUri, a.id, -1⟩ else none
      | none => none
    else none)

/-- One deletion step of the reconciler: map the current edge's type back
to an object property by title; when it maps and its triple is not
desired, delete the edge; otherwise leave it untouched. -/
def reconDeleteStep (sig : Signature) (newSet : List (String × String × Int))
    (h : Graph) (r : CurRel) : Graph :=
  match sig.obj_params.find? (fun p => p.title == r.relType) with
  | some p =>
    if newSet.contains (p.uri, r.targetUri, r.direction) then h
    else (delete_arc_by_id h r.arcId).2
  | none => h

/-- Does the deletion pass delete the current edge `r`? (Its type maps to
an object property of the signature and its triple is not desired.) -/
def delDecision (sig : Signature) (newSet : List (String × String × Int))
    (r : CurRel) : Bool :=
  match sig.obj_params.find? (fun p => p.title == r.relType) with
  | some p => !(newSet.contains (p.uri, r.targetUri, r.direction))
  | none => false

/-- The shape of the edge a desired relationship entry denotes, for
relation type `rt`: forward from the object for direction 1, into the
object otherwise. -/
def desiredShape (rt uri : String) (op : DesiredRel) (a : Arc) : Prop :=
  a.type = rt ∧
  (if (op.direction == 1) = true then a.fromUri = uri ∧ a.toUri = op.obj_uri
   else a.fromUri = op.obj_uri ∧ a.toUri = uri)

/-- One creation step of the reconciler: create the desired edge unless an
edge with the same type and endpoints already exists in the requested
direction. -/
def reconCreateStep (uri : String) (acc : Except Err Unit × Graph) (op : DesiredRel) :
    Except Err Unit × Graph :=
  match acc with
  | (.error e, h) => (.error e, h)
  | (.ok _, h) =>
    let relTitle := relTitleOf h op.relation_uri
    if op.direction == 1 then
      if (h.arcs.filter (fun a =>
            a.fromUri == uri && a.toUri == op.obj_uri && a.type == relTitle)).isEmpty then
        match create_arc h uri op.obj_uri relTitle with
        | (.ok _, h') => (.ok (), h')
        | (.error e, h') => (.error e, h')
      else (.ok (), h)
    else
      if (h.arcs.filter (fun a =>
            a.fromUri == op.obj_uri && a.toUri == uri && a.type == relTitle)).isEmpty then
        match create_arc h op.obj_uri uri relTitle with
        | (.ok _, h') => (.ok (), h')
        | (.error e, h') => (.error e, h')
      else (.ok (), h)

/-- The reconciler's deletion pass over the current relationship rows. -/
def reconDelFold (sig : Signature) (newSet : List (String × String × Int))
    (g : Graph) (rs : List CurRel) : Graph :=
  rs.foldl (reconDeleteStep sig newSet) g

/-- The reconciler's creation pass over the desired relationship list. -/
def reconCreFold (uri : String) (g : Graph) (ops : List DesiredRel) :
    Except Err Unit × Graph :=
  ops.foldl (reconCreateStep uri) (.ok (), g)

/-- Rows of `MATCH (o \x7buri: $uri\x7d)-[:INSTANCEOF]->(c) RETURN c.uri`. -/
def objectClassRows (g : Graph) (uri : String) : List String :=
  (g.arcs.filter (fun a => a.type == "INSTANCEOF" && a.fromUri == uri)).filterMap
    (fun a => (g.nodes.find? (fun c => c.matchesUri a.toUri)).map (fun c => c.strProp "uri"))

/-- `update_object`: returns `None` untouched when `uri` is not an Object;
otherwise reads the class, resolves the signature, validates the scalar
properties, and when a desired relationship list is supplied validates it
and reconciles the current Object-to-Object edges against it (deleting
mapped edges whose triple is not desired, then creating missing desired
edges); finally merges title/description/properties via `update_node`. -/
def update_object (g : Graph) (uri : String) (title? desc? : Option String)
    (properties : List (String × Value)) (object_properties : Option (List DesiredRel)) :
    Except Err (Option TNode) × Graph :=
  match get_object g uri with
  | none => (.ok none, g)
  | some _ =>
    match (objectClassRows g uri).head? with
    | none => (.error (.runtime "No class for object"), g)
    | some cu =>
      if cu == "" then (.error (.runtime "No class for object"), g)
      else
        match collect_signature g cu with
        | .error e => (.error e, g)
        | .ok sig =>
          let param_uris := sig.params.map (fun p => p.uri)
          match properties.find? (fun kv => !(param_uris.contains kv.1)) with
          | some kv => (.error (.validation ("Unknown property " ++ kv.1)), g)
          | none =>
            let step1 : Except Err Unit × Graph :=
              match object_properties with
              | none => (.ok (), g)
              | some ops =>
                let obj_param_uris := sig.obj_params.map (fun p => p.uri)
                match ops.findSome? (opError g obj_param_uris) with
                | some e => (.error e, g)
                | none =>
                  reconCreFold uri
                    (reconDelFold sig (opKeys ops) g (currentRels g uri)) ops
            match step1 with
            | (.error e, h) => (.error e, h)
            | (.ok _, h) =>
              update_node h uri (mergeProps (baseParams title? desc?) properties)

/-! ### Well-formedness of reachable store states -/

/-- Invariants every reachable Neo4j state has in this repository: every
node carries a string `uri` property, uris are globally unique, element
ids are unique and below the id counter, and arc endpoints are backed by
nodes. -/
def Wf (g : Graph) : Prop :=
  (∀ n ∈ g.nodes, n.uriKey.isSome) ∧
  (g.nodes.filterMap Node.uriKey).Nodup ∧
  (g.arcs.map Arc.id).Nodup ∧
  (∀ a ∈ g.arcs, a.id < g.nextId) ∧
  (∀ a ∈ g.arcs, (∃ n ∈ g.nodes, n.uriKey = some a.fromUri) ∧
                 (∃ n ∈ g.nodes, n.uriKey = some a.toUri))

instance (g : Graph) : Decidable (Wf g) := by
  unfold Wf
  infer_instance

/-- One SUBCLASSOF arc between two uris (the step relation whose
reflexive-transitive closure the `*0..` patterns denote). -/
def subArcRel (g : Graph) (a b : String) : Prop :=
  ∃ r ∈ g.arcs, r.type = "SUBCLASSOF" ∧ r.fromUri = a ∧ r.toUri = b

/-- The arc types the schema itself uses (never object-property edges). -/
def reservedTy (ty : String) : Bool :=
  ty == "SUBCLASSOF" || ty == "DOMAIN" || ty == "RANGE" || ty == "INSTANCEOF"

/-- The node map `update_node` applies to the store: merge the filtered
delta into the matching node, leave every other node alone. -/
def updMap (uri : String) (delta : List (String × Value)) (m : Node) : Node :=
  if m.matchesUri uri then ⟨m.label, mergeProps m.props delta⟩ else m

/-! ### Concrete example graphs (used as witnesses and counterexamples) -/

/-- A node with a string uri and title. -/
def exNode (lab u t : String) : Node := ⟨lab, [("uri", .str u), ("title", .str t)]⟩

/-- The empty store. -/
def gEmpty : Graph := ⟨[], [], 0, 0, 0, 0⟩

/-- Diamond hierarchy: A SUBCLASSOF B, A SUBCLASSOF C, B SUBCLASSOF D,
C SUBCLASSOF D, one DatatypeProperty `p` domained on D. -/
def gDiamond : Graph :=
  { nodes := [exNode "Class" "A" "A", exNode "Class" "B" "B", exNode "Class" "C" "C",
              exNode "Class" "D" "D", exNode "DatatypeProperty" "p" "age"],
    arcs := [⟨0, "SUBCLASSOF", "A", "B"⟩, ⟨1, "SUBCLASSOF", "A", "C"⟩,
             ⟨2, "SUBCLASSOF", "B", "D"⟩, ⟨3, "SUBCLASSOF", "C", "D"⟩,
             ⟨4, "DOMAIN", "p", "D"⟩],
    nextId := 10, uriSeed := 0, arcCreations := 0, arcDeletions := 0 }

/-- Class P with subclass Q and an Object O instance of Q. -/
def gCascade : Graph :=
  { nodes := [exNode "Class" "P" "P", exNode "Class" "Q" "Q", exNode "Object" "O" "O"],
    arcs := [⟨0, "SUBCLASSOF", "Q", "P"⟩, ⟨1, "INSTANCEOF", "O", "Q"⟩],
    nextId := 10, uriSeed := 0, arcCreations := 0, arcDeletions := 0 }

/-- Class `c`, Object `o` instance of `c`, ObjectProperty `p` (titled
`rel`) with DOMAIN and RANGE `c`. -/
def gSelfLoop : Graph :=
  { nodes := [exNode "Class" "c" "c", exNode "Object" "o" "o",
              exNode "ObjectProperty" "p" "rel"],
    arcs := [⟨0, "INSTANCEOF", "o", "c"⟩, ⟨1, "DOMAIN", "p", "c"⟩, ⟨2, "RANGE", "p", "c"⟩],
    nextId := 10, uriSeed := 0, arcCreations := 0, arcDeletions := 0 }

/-- Like `gSelfLoop` but with an extra Class-labeled node `t` available as
a relationship target. -/
def gClassTarget : Graph :=
  { nodes := [exNode "Class" "c" "c", exNode "Object" "o" "o",
              exNode "ObjectProperty" "p" "rel", exNode "Class" "t" "t"],
    arcs := [⟨0, "INSTANCEOF", "o", "c"⟩, ⟨1, "DOMAIN", "p", "c"⟩, ⟨2, "RANGE", "p", "c"⟩],
    nextId := 10, uriSeed := 0, arcCreations := 0, arcDeletions := 0 }

/-- Class `c` with two object properties (`knows`, `likes`), an Object `o`
with one stale `knows` edge, and two target Objects. -/
def gRecon : Graph :=
  { nodes := [exNode "Class" "c" "c", exNode "Object" "o" "o", exNode "Object" "t1" "t1",
              exNode "Object" "t2" "t2", exNode "ObjectProperty" "r1" "knows",
              exNode "ObjectProperty" "r2" "likes"],
    arcs := [⟨0, "INSTANCEOF", "o", "c"⟩, ⟨1, "INSTANCEOF", "t1", "c"⟩,
             ⟨2, "INSTANCEOF", "t2", "c"⟩,
             ⟨3, "DOMAIN", "r1", "c"⟩, ⟨4, "RANGE", "r1", "c"⟩,
             ⟨5, "DOMAIN", "r2", "c"⟩, ⟨6, "RANGE", "r2", "c"⟩,
             ⟨7, "knows", "o", "t2"⟩],
    nextId := 10, uriSeed := 0, arcCreations := 0, arcDeletions := 0 }

/-! ## Closure lemmas -/

theorem mem_expandWith {next : String → List String} {s : List String} {x : String} :
    x ∈ expandWith next s ↔ x ∈ s ∨ ∃ a ∈ s, x ∈ next a := by
  simp [expandWith, List.mem_dedup, List.mem_append, List.mem_flatMap]

theorem subset_expandWith {next : String → List String} {s : List String} :
    s ⊆ expandWith next s :=
  fun _ hx => mem_expandWith.mpr (Or.inl hx)

theorem expandWith_subset_mono {next : String → List String} {s t : List String}
    (h : s ⊆ t) : expandWith next s ⊆ expandWith next t := by
  intro x hx
  rcases mem_expandWith.mp hx with hx | ⟨a, ha, hxa⟩
  · exact mem_expandWith.mpr (Or.inl (h hx))
  · exact mem_expandWith.mpr (Or.inr ⟨a, h ha, hxa⟩)

theorem reachList_zero (next : String → List String) (u : String) :
    reachList next 0 u = [u] := rfl

theorem reachList_succ (next : String → List String) (k : Nat) (u : String) :
    reachList next (k + 1) u = expandWith next (reachList next k u) := by
  simp [reachList, Function.iterate_succ_apply']

theorem nodup_reachList (next : String → List String) (k : Nat) (u : String) :
    (reachList next k u).Nodup := by
  cases k with
  | zero => simp [reachList_zero]
  | succ k => rw [reachList_succ]; exact List.nodup_dedup _

theorem mem_reachList_sound {next : String → List String} {k : Nat} {u v : String}
    (h : v ∈ reachList next k u) :
    Relation.ReflTransGen (fun a b => b ∈ next a) u v := by
  induction k generalizing v with
  | zero =>
    rw [reachList_zero] at h
    rcases List.mem_singleton.mp h with rfl
    exact .refl
  | succ k ih =>
    rw [reachList_succ] at h
    rcases mem_expandWith.mp h with h | ⟨a, ha, hv⟩
    · exact ih h
    · exact (ih ha).tail hv

theorem reachList_mono_succ (next : String → List String) (k : Nat) (u : String) :
    reachList next k u ⊆ reachList next (k + 1) u := by
  rw [reachList_succ]; exact subset_expandWith

theorem reachList_mono {next : String → List String} {u : String} {k j : Nat}
    (h : k ≤ j) : reachList next k u ⊆ reachList next j u := by
  induction h with
  | refl => exact fun x hx => hx
  | step _ ih => exact fun x hx => reachList_mono_succ next _ u (ih hx)

theorem reachList_subset_univ {next : String → List String} {univ : List String}
    {u : String} (hu : u ∈ univ) (hnext : ∀ a b, b ∈ next a → b ∈ univ) (k : Nat) :
    reachList next k u ⊆ univ := by
  induction k with
  | zero =>
    intro x hx
    rw [reachList_zero] at hx
    rcases List.mem_singleton.mp hx with rfl
    exact hu
  | succ k ih =>
    rw [reachList_succ]
    intro x hx
    rcases mem_expandWith.mp hx with hx | ⟨a, ha, hxa⟩
    · exact ih hx
    · exact hnext a x hxa

theorem length_le_of_nodup_subset {l univ : List String} (hn : l.Nodup) (hs : l ⊆ univ) :
    l.length ≤ univ.dedup.length := by
  have h1 : l ⊆ univ.dedup := fun x hx => List.mem_dedup.mpr (hs hx)
  exact (hn.subperm h1).length_le

theorem reachList_stable_or_long (next : String → List String) (u : String) (k : Nat) :
    (expandWith next (reachList next k u) ⊆ reachList next k u) ∨
      k + 1 ≤ (reachList next k u).length := by
  induction k with
  | zero =>
    right
    rw [reachList_zero]
    exact Nat.le_refl 1
  | succ k ih =>
    by_cases hsk : expandWith next (reachList next k u) ⊆ reachList next k u
    · left
      rw [reachList_succ]
      exact expandWith_subset_mono hsk
    · rcases ih with hs | hl
      · exact absurd hs hsk
      · right
        rcases Set.not_subset.mp hsk with ⟨x, hx1, hx2⟩
        have hsub : x :: reachList next k u ⊆ reachList next (k + 1) u := by
          intro y hy
          rcases List.mem_cons.mp hy with rfl | hy
          · rw [reachList_succ]; exact hx1
          · exact reachList_mono_succ next k u hy
        have hnd : (x :: reachList next k u).Nodup :=
          List.nodup_cons.mpr ⟨hx2, nodup_reachList next k u⟩
        have := (hnd.subperm hsub).length_le
        simp only [List.length_cons] at this
        omega

theorem reachList_stable (univ : List String) {next : String → List String} {u : String}
    (hu : u ∈ univ) (hnext : ∀ a b, b ∈ next a → b ∈ univ) {N : Nat}
    (hN : univ.dedup.length ≤ N) :
    expandWith next (reachList next N u) ⊆ reachList next N u := by
  rcases reachList_stable_or_long next u N with hs | hl
  · exact hs
  · exfalso
    have h1 : (reachList next N u).length ≤ univ.dedup.length :=
      length_le_of_nodup_subset (nodup_reachList next N u)
        (reachList_subset_univ hu hnext N)
    omega

theorem reachList_complete (univ : List String) {next : String → List String}
    {u : String} (hu : u ∈ univ) (hnext : ∀ a b, b ∈ next a → b ∈ univ) {N : Nat}
    (hN : univ.dedup.length ≤ N) {v : String}
    (hrtg : Relation.ReflTransGen (fun a b => b ∈ next a) u v) :
    v ∈ reachList next N u := by
  have hstable := reachList_stable univ hu hnext hN
  induction hrtg with
  | refl =>
    have h0 : u ∈ reachList next 0 u := by
      rw [reachList_zero]; exact List.mem_singleton.mpr rfl
    exact reachList_mono (Nat.zero_le N) h0
  | tail _ hbc ih =>
    exact hstable (mem_expandWith.mpr (Or.inr ⟨_, ih, hbc⟩))

theorem mem_subStep {g : Graph} {a b : String} :
    b ∈ subStep g a ↔ subArcRel g a b := by
  constructor
  · intro hb
    rw [subStep, List.mem_map] at hb
    rcases hb with ⟨r, hr, rfl⟩
    rw [List.mem_filter] at hr
    obtain ⟨hr, hcond⟩ := hr
    simp only [Bool.and_eq_true, beq_iff_eq] at hcond
    exact ⟨r, hr, hcond.1, hcond.2, rfl⟩
  · rintro ⟨r, hr, ht, hf, rfl⟩
    rw [subStep, List.mem_map]
    refine ⟨r, ?_, rfl⟩
    rw [List.mem_filter]
    exact ⟨hr, by simp [ht, hf]⟩

theorem mem_revStep {g : Graph} {a b : String} :
    b ∈ revStep g a ↔ subArcRel g b a := by
  constructor
  · intro hb
    rw [revStep, List.mem_map] at hb
    rcases hb with ⟨r, hr, rfl⟩
    rw [List.mem_filter] at hr
    obtain ⟨hr, hcond⟩ := hr
    simp only [Bool.and_eq_true, beq_iff_eq] at hcond
    exact ⟨r, hr, hcond.1, rfl, hcond.2⟩
  · rintro ⟨r, hr, ht, rfl, hf⟩
    rw [revStep, List.mem_map]
    refine ⟨r, ?_, rfl⟩
    rw [List.mem_filter]
    exact ⟨hr, by simp [ht, hf]⟩

theorem dedup_cons_length_le (u : String) (l : List String) :
    (u :: l).dedup.length ≤ l.length + 1 := by
  have h := (List.dedup_sublist (u :: l)).length_le
  simpa using h

theorem mem_ancUris {g : Graph} {u v : String} :
    v ∈ ancUris g u ↔ Relation.ReflTransGen (subArcRel g) u v := by
  constructor
  · intro h
    exact Relation.ReflTransGen.mono (fun a b hab => mem_subStep.mp hab)
      (mem_reachList_sound h)
  · intro h
    show v ∈ reachList (subStep g) (g.arcs.length + 1) u
    apply reachList_complete (u :: g.arcs.map Arc.toUri)
    · exact List.mem_cons_self u _
    · intro a b hb
      rw [subStep, List.mem_map] at hb
      rcases hb with ⟨r, hr, rfl⟩
      exact List.mem_cons_of_mem u
        (List.mem_map.mpr ⟨r, List.mem_of_mem_filter hr, rfl⟩)
    · have h1 := dedup_cons_length_le u (g.arcs.map Arc.toUri)
      simpa using h1
    · exact Relation.ReflTransGen.mono (fun a b hab => mem_subStep.mpr hab) h

theorem mem_descReach {g : Graph} {u v : String} :
    v ∈ descReach g u ↔ Relation.ReflTransGen (fun a b => subArcRel g b a) u v := by
  constructor
  · intro h
    exact Relation.ReflTransGen.mono (fun a b hab => mem_revStep.mp hab)
      (mem_reachList_sound h)
  · intro h
    show v ∈ reachList (revStep g) (g.arcs.length + 1) u
    apply reachList_complete (u :: g.arcs.map Arc.fromUri)
    · exact List.mem_cons_self u _
    · intro a b hb
      rw [revStep, List.mem_map] at hb
      rcases hb with ⟨r, hr, rfl⟩
      exact List.mem_cons_of_mem u
        (List.mem_map.mpr ⟨r, List.mem_of_mem_filter hr, rfl⟩)
    · have h1 := dedup_cons_length_le u (g.arcs.map Arc.fromUri)
      simpa using h1
    · exact Relation.ReflTransGen.mono (fun a b hab => mem_revStep.mpr hab) h

/-! ## Property-bag lemmas -/

theorem getProp_nil (k : String) : getProp [] k = none := rfl

theorem getProp_append (ps qs : List (String × Value)) (k : String) :
    getProp (ps ++ qs) k = (getProp ps k).or (getProp qs k) := by
  simp only [getProp, List.find?_append]
  cases List.find? (fun kv => kv.1 == k) ps <;> simp

theorem getProp_cons_self {kv : String × Value} {k : String} (h : kv.1 = k)
    (rest : List (String × Value)) : getProp (kv :: rest) k = some kv.2 := by
  rw [getProp, List.find?_cons_of_pos _ (by simpa using h)]
  rfl

theorem getProp_cons_other {kv : String × Value} {k : String} (h : ¬ kv.1 = k)
    (rest : List (String × Value)) : getProp (kv :: rest) k = getProp rest k := by
  rw [getProp, List.find?_cons_of_neg _ (by simpa using h)]
  rfl

theorem getProp_eq_none_of_not_key {ps : List (String × Value)} {k : String}
    (h : ∀ kv ∈ ps, kv.1 ≠ k) : getProp ps k = none := by
  rw [getProp, List.find?_eq_none.mpr (fun kv hkv => by simpa using h kv hkv)]
  rfl

theorem getProp_setProp_self (ps : List (String × Value)) (k : String) (v : Value) :
    getProp (setProp ps k v) k = some v := by
  rw [setProp]
  by_cases h : ps.any (fun kv => kv.1 == k) = true
  · rw [if_pos h]
    induction ps with
    | nil => simp at h
    | cons kv rest ih =>
      rw [List.map_cons]
      by_cases hk : kv.1 = k
      · have hif : (if (kv.1 == k) = true then (k, v) else kv) = (k, v) :=
          if_pos (by simpa using hk)
        rw [hif, getProp_cons_self rfl]
      · have hif : (if (kv.1 == k) = true then (k, v) else kv) = kv :=
          if_neg (by simpa using hk)
        rw [hif, getProp_cons_other hk]
        apply ih
        simp only [List.any_cons, Bool.or_eq_true] at h
        rcases h with h | h
        · exact absurd (by simpa using h) hk
        · exact h
  · rw [if_neg h, getProp_append]
    have hnone : getProp ps k = none := by
      apply getProp_eq_none_of_not_key
      intro kv hkv hc
      apply h
      rw [List.any_eq_true]
      exact ⟨kv, hkv, by simpa using hc⟩
    rw [hnone, Option.none_or, getProp_cons_self rfl]

theorem getProp_setProp_other {k k' : String} (h : k' ≠ k)
    (ps : List (String × Value)) (v : Value) :
    getProp (setProp ps k v) k' = getProp ps k' := by
  rw [setProp]
  by_cases hany : ps.any (fun kv => kv.1 == k) = true
  · rw [if_pos hany]
    clear hany
    induction ps with
    | nil => rfl
    | cons kv rest ih =>
      rw [List.map_cons]
      by_cases hk : kv.1 = k
      · have hif : (if (kv.1 == k) = true then (k, v) else kv) = (k, v) :=
          if_pos (by simpa using hk)
        rw [hif, getProp_cons_other (fun hc => h hc.symm) _,
            getProp_cons_other (fun hc => h (hk ▸ hc).symm) rest]
        exact ih
      · have hif : (if (kv.1 == k) = true then (k, v) else kv) = kv :=
          if_neg (by simpa using hk)
        rw [hif]
        by_cases hk' : kv.1 = k'
        · rw [getProp_cons_self hk', getProp_cons_self hk']
        · rw [getProp_cons_other hk', getProp_cons_other hk']
          exact ih
  · rw [if_neg hany, getProp_append]
    cases hps : getProp ps k' with
    | some v2 => rfl
    | none =>
      rw [Option.none_or, getProp_cons_other (fun hc => h hc.symm) []]
      rfl

theorem mergeProps_nil (base : List (String × Value)) : mergeProps base [] = base := rfl

theorem getProp_mergeProps_of_not_mem {delta : List (String × Value)} {k : String}
    (h : ∀ kv ∈ delta, kv.1 ≠ k) (base : List (String × Value)) :
    getProp (mergeProps base delta) k = getProp base k := by
  induction delta generalizing base with
  | nil => rfl
  | cons kv rest ih =>
    rw [mergeProps, List.foldl_cons]
    have h1 := ih (fun kv2 hkv2 => h kv2 (List.mem_cons_of_mem kv hkv2))
      (setProp base kv.1 kv.2)
    rw [mergeProps] at h1
    rw [h1]
    exact getProp_setProp_other (Ne.symm (h kv (List.mem_cons_self kv rest))) base kv.2

theorem getProp_mergeProps_of_mem {delta : List (String × Value)} {k : String} {v : Value}
    (hnd : (delta.map Prod.fst).Nodup) (h : (k, v) ∈ delta) (base : List (String × Value)) :
    getProp (mergeProps base delta) k = some v := by
  induction delta generalizing base with
  | nil => exact absurd h (List.not_mem_nil _)
  | cons kv rest ih =>
    rw [mergeProps, List.foldl_cons]
    rw [List.map_cons, List.nodup_cons] at hnd
    rcases List.mem_cons.mp h with rfl | hmem
    · have hrest : ∀ kv2 ∈ rest, kv2.1 ≠ k := by
        intro kv2 hkv2 hc
        exact hnd.1 (hc ▸ List.mem_map.mpr ⟨kv2, hkv2, rfl⟩)
      have h1 := getProp_mergeProps_of_not_mem hrest (setProp base k v)
      rw [mergeProps] at h1
      rw [h1]
      exact getProp_setProp_self base k v
    · exact ih hnd.2 hmem (setProp base kv.1 kv.2)

/-! ## Node lookup lemmas -/

theorem matchesUri_iff {n : Node} {u : String} :
    n.matchesUri u = true ↔ n.uriVal = some (.str u) := by
  rw [Node.matchesUri]
  exact beq_iff_eq ..

theorem uriKey_eq_some_iff {n : Node} {u : String} :
    n.uriKey = some u ↔ n.uriVal = some (.str u) := by
  rw [Node.uriKey]
  cases h : n.uriVal with
  | none => simp
  | some v => cases v <;> simp

theorem strProp_uri_of_uriVal {n : Node} {u : String} (h : n.uriVal = some (.str u)) :
    n.strProp "uri" = u := by
  rw [Node.uriVal] at h
  rw [Node.strProp, h]
  rfl

theorem find?_matchesUri_eq {l : List Node} (hnd : (l.filterMap Node.uriKey).Nodup)
    {n : Node} {u : String} (hn : n ∈ l) (hu : n.uriKey = some u) :
    l.find? (fun m => m.matchesUri u) = some n := by
  induction l with
  | nil => cases hn
  | cons hd rest ih =>
    rw [List.filterMap_cons] at hnd
    rcases List.mem_cons.mp hn with rfl | hn2
    · exact List.find?_cons_of_pos _ (matchesUri_iff.mpr (uriKey_eq_some_iff.mp hu))
    · by_cases hm : hd.matchesUri u = true
      · exfalso
        have hmk : hd.uriKey = some u := uriKey_eq_some_iff.mpr (matchesUri_iff.mp hm)
        rw [hmk] at hnd
        rw [List.nodup_cons] at hnd
        exact hnd.1 (List.mem_filterMap.mpr ⟨n, hn2, hu⟩)
      · have hstep : (hd :: rest).find? (fun m => m.matchesUri u) =
            rest.find? (fun m => m.matchesUri u) := List.find?_cons_of_neg rest hm
        rw [hstep]
        apply ih _ hn2
        cases hmk : hd.uriKey with
        | none => rw [hmk] at hnd; exact hnd
        | some x => rw [hmk] at hnd; exact (List.nodup_cons.mp hnd).2

/-- Under `Wf`, looking a node's own uri up finds exactly that node. -/
theorem Wf.get_node_self {g : Graph} (hwf : Wf g) {n : Node} {u : String}
    (hn : n ∈ g.nodes) (hu : n.uriKey = some u) :
    get_node_by_uri g u = some (collect_node n) := by
  rw [get_node_by_uri, find?_matchesUri_eq hwf.2.1 hn hu]
  rfl

/-! ## C5: closure traversal is cycle-safe, duplicate-free and complete -/

/-- C5: on every graph state, cyclic SUBCLASSOF hierarchies included, the
ancestor closure used by `collect_signature` and the descendant closure
used by `delete_class` are computed by total functions, contain each uri
(in particular each Class) at most once, and contain exactly the uris
related to the start by the reflexive-transitive closure of SUBCLASSOF. -/
theorem C5_closure_cycle_safe (g : Graph) (u : String) :
    (ancUris g u).Nodup ∧ (descClassUris g u).Nodup ∧ (descReach g u).Nodup ∧
    (∀ v, v ∈ ancUris g u ↔ Relation.ReflTransGen (subArcRel g) u v) ∧
    (∀ v, v ∈ descReach g u ↔ Relation.ReflTransGen (fun a b => subArcRel g b a) u v) := by
  refine ⟨nodup_reachList _ _ _, List.nodup_dedup _, nodup_reachList _ _ _, ?_, ?_⟩
  · intro v; exact mem_ancUris
  · intro v; exact mem_descReach

/-! ## C7: empty descendant closure leaves the graph untouched -/

/-- C7: when the inclusive descendant closure of `uri` contains no Class
(in particular when no node with that uri exists), `delete_class` returns
`false` and deletes nothing. -/
theorem C7_delete_class_not_found (g : Graph) (uri : String)
    (h : descClassUris g uri = []) : delete_class g uri = (false, g) := by
  rw [delete_class, h]
  rfl

theorem C7_witness :
    descClassUris gEmpty "missing" = [] ∧ delete_class gEmpty "missing" = (false, gEmpty) :=
  ⟨by decide, C7_delete_class_not_found gEmpty "missing" (by decide)⟩

/-! ## C10: updating a missing or non-Object node is a no-op -/

/-- C10: when no node at `uri` carries the label Object, `update_object`
returns `None` without validating its arguments and without mutating the
graph. -/
theorem C10_update_object_missing (g : Graph) (uri : String) (t d : Option String)
    (props : List (String × Value)) (ops : Option (List DesiredRel))
    (h : get_object g uri = none) :
    update_object g uri t d props ops = (.ok none, g) := by
  simp [update_object, h]

theorem C10_witness :
    get_object gEmpty "ghost" = none ∧
    update_object gEmpty "ghost" none none [("bogus", .int 1)]
      (some [⟨"junk", "nowhere", 5⟩]) = (.ok none, gEmpty) :=
  ⟨by decide,
   C10_update_object_missing gEmpty "ghost" none none [("bogus", .int 1)]
     (some [⟨"junk", "nowhere", 5⟩]) (by decide)⟩

/-! ## C4: unknown property keys abort object creation before any mutation -/

/-- C4: when the supplied property map contains a key that is not the uri
of a DatatypeProperty in the class's resolved signature, `create_object`
raises a `ValidationError` and performs no mutation whatsoever. -/
theorem C4_create_object_unknown_property (g : Graph) (cu t d : String)
    (props : List (String × Value)) (ops : List DesiredRel) (c : TNode) (sig : Signature)
    (hclass : get_class g cu = some c)
    (hsig : collect_signature g cu = .ok sig)
    (hbad : ∃ kv ∈ props, ¬ ((sig.params.map (fun p => p.uri)).contains kv.1 = true)) :
    (create_object g cu t d props ops).2 = g ∧
    ∃ msg, (create_object g cu t d props ops).1 = Except.error (.validation msg) := by
  have hfind : (props.find?
      (fun kv => !((sig.params.map (fun p => p.uri)).contains kv.1))).isSome := by
    rw [List.find?_isSome]
    obtain ⟨kv, hkv, hc⟩ := hbad
    exact ⟨kv, hkv, by simpa using hc⟩
  obtain ⟨kv0, hkv0⟩ := Option.isSome_iff_exists.mp hfind
  rw [create_object]
  rw [hclass]
  simp only [Option.isNone_some, Bool.false_eq_true, if_false, hsig, hkv0]
  exact ⟨trivial, "Unknown property " ++ kv0.1, rfl⟩

theorem C4_witness :
    get_class gDiamond "A" = some ⟨"A", "A", "", "Class"⟩ ∧
    collect_signature gDiamond "A" = .ok ⟨[⟨"age", "p"⟩], []⟩ ∧
    (∃ kv ∈ [(("bogus" : String), Value.int 1)],
      ¬ (([⟨"age", "p"⟩] : List Param).map (fun p => p.uri)).contains kv.1 = true) ∧
    (create_object gDiamond "A" "ttl" "" [("bogus", .int 1)] []).2 = gDiamond ∧
    (∃ msg, (create_object gDiamond "A" "ttl" "" [("bogus", .int 1)] []).1 =
      Except.error (.validation msg)) := by
  refine ⟨by decide, by rfl, by decide, ?_⟩
  exact C4_create_object_unknown_property gDiamond "A" "ttl" "" [("bogus", .int 1)] []
    ⟨"A", "A", "", "Class"⟩ ⟨[⟨"age", "p"⟩], []⟩ (by decide) (by rfl) (by decide)

/-! ## C9: create/fetch round trip -/

theorem getProp_buildCreateProps_uri (uri : String) (params : List (String × Value)) :
    getProp (buildCreateProps uri params) "uri" = some (.str uri) := by
  rw [buildCreateProps]
  have hfilter : ∀ kv ∈ params.filter (fun kv => kv.1 != "label" && kv.1 != "uri"),
      kv.1 ≠ "uri" := by
    intro kv hkv
    have hp := List.of_mem_filter hkv
    rw [Bool.and_eq_true, bne_iff_ne, bne_iff_ne] at hp
    exact hp.2
  rw [getProp_mergeProps_of_not_mem hfilter]
  have huri0 : getProp [(("uri" : String), Value.str uri)] "uri" = some (.str uri) :=
    getProp_cons_self rfl []
  have huri1 : getProp (match getProp params "description" with
      | some v => setProp [(("uri" : String), Value.str uri)] "description" v
      | none => [(("uri" : String), Value.str uri)]) "uri" = some (.str uri) := by
    cases getProp params "description" with
    | none => exact huri0
    | some v => rw [getProp_setProp_other (by decide) _ v]; exact huri0
  cases getProp params "title" with
  | none => exact huri1
  | some v => rw [getProp_setProp_other (by decide) _ v]; exact huri1

theorem getProp_buildCreateProps_other (uri : String) {params : List (String × Value)}
    {k : String} {v : Value} (hnd : (params.map Prod.fst).Nodup)
    (hk1 : k ≠ "label") (hk2 : k ≠ "uri") (h : getProp params k = some v) :
    getProp (buildCreateProps uri params) k = some v := by
  rw [buildCreateProps]
  have hkv : (k, v) ∈ params := by
    rw [getProp] at h
    rw [Option.map_eq_some'] at h
    obtain ⟨kv0, hfind, hv⟩ := h
    have hpred := List.find?_some hfind
    rw [beq_iff_eq] at hpred
    have hmem := List.mem_of_find?_eq_some hfind
    have : kv0 = (k, v) := by
      cases kv0
      simp only [Prod.mk.injEq]
      exact ⟨hpred, hv⟩
    rw [this] at hmem
    exact hmem
  have hmemf : (k, v) ∈ params.filter (fun kv => kv.1 != "label" && kv.1 != "uri") := by
    rw [List.mem_filter]
    refine ⟨hkv, ?_⟩
    rw [Bool.and_eq_true, bne_iff_ne, bne_iff_ne]
    exact ⟨hk1, hk2⟩
  have hndf : ((params.filter (fun kv => kv.1 != "label" && kv.1 != "uri")).map
      Prod.fst).Nodup :=
    ((List.filter_sublist params).map Prod.fst).nodup hnd
  exact getProp_mergeProps_of_mem hndf hmemf _

/-- C9 counterexample: `get_node_by_uri` returns the `TNode` projection
(uri/title/description/label only), so it does not return the values of
`a` and `b` at all: two creations that differ only in the value of `a`
produce identical fetch results even though the stored graphs differ. -/
theorem C9_cex :
    (get_node_by_uri (create_node gEmpty [("label", .str "Thing"), ("uri", .str "z"),
        ("a", .int 1), ("b", .str "x")]).2 "z" =
      get_node_by_uri (create_node gEmpty [("label", .str "Thing"), ("uri", .str "z"),
        ("a", .int 2), ("b", .str "x")]).2 "z") ∧
    (create_node gEmpty [("label", .str "Thing"), ("uri", .str "z"),
        ("a", .int 1), ("b", .str "x")]).2 ≠
      (create_node gEmpty [("label", .str "Thing"), ("uri", .str "z"),
        ("a", .int 2), ("b", .str "x")]).2 := by
  decide

/-- C9 amended: creating a node with a fresh uri and a property map
containing `a` and `b` and then fetching it by uri returns a `TNode` with
the same uri and an unchanged label, and the stored node keeps the
supplied values of `a` and `b` unchanged; the fetched `TNode` projection
itself carries only uri/title/description/label. -/
theorem C9_create_get_roundtrip (g : Graph) (params : List (String × Value))
    (u : String) (lv : Value)
    (hnd : (params.map Prod.fst).Nodup)
    (hlab : getProp params "label" = some lv) (hlabne : lv.toStr ≠ "")
    (huri : getProp params "uri" = some (.str u)) (hune : u ≠ "")
    (hfresh : ∀ n ∈ g.nodes, n.matchesUri u = false) :
    ∃ t : TNode, (create_node g params).1 = .ok t ∧
      get_node_by_uri (create_node g params).2 u = some t ∧
      t.uri = u ∧ t.label = lv.toStr ∧
      ∃ node : Node, (create_node g params).2.nodes = g.nodes ++ [node] ∧
        node.label = lv.toStr ∧ node.uriVal = some (.str u) ∧
        ∀ k v, k ≠ "label" → k ≠ "uri" → getProp params k = some v →
          getProp node.props k = some v := by
  have hlabne2 : (lv.toStr == "") = false := by
    rw [beq_eq_false_iff_ne]
    exact hlabne
  have htruthy : (Value.str u).truthy = true := by
    rw [Value.truthy, bne_iff_ne]
    exact hune
  have hshape : create_node g params =
      (.ok (collect_node ⟨lv.toStr, buildCreateProps u params⟩),
       {g with nodes := g.nodes ++ [⟨lv.toStr, buildCreateProps u params⟩]}) := by
    rw [create_node, hlab, huri]
    simp only [Option.getD_some, hlabne2, Bool.false_eq_true, if_false, htruthy, if_true]
    rfl
  set node : Node := ⟨lv.toStr, buildCreateProps u params⟩ with hnode
  have hnuri : node.uriVal = some (.str u) := getProp_buildCreateProps_uri u params
  refine ⟨collect_node node, ?_, ?_, ?_, ?_, node, ?_, rfl, hnuri, ?_⟩
  · rw [hshape]
  · rw [hshape]
    show ((g.nodes ++ [node]).find? (fun n => n.matchesUri u)).map collect_node =
      some (collect_node node)
    rw [List.find?_append]
    have h1 : g.nodes.find? (fun n => n.matchesUri u) = none :=
      List.find?_eq_none.mpr (fun n hn => by rw [hfresh n hn]; exact Bool.false_ne_true)
    rw [h1, Option.none_or]
    have hpos : ([node].find? (fun n => n.matchesUri u)) = some node :=
      List.find?_cons_of_pos _ (matchesUri_iff.mpr hnuri)
    rw [hpos]
    rfl
  · exact strProp_uri_of_uriVal hnuri
  · rfl
  · rw [hshape]
  · intro k v hk1 hk2 hkv
    exact getProp_buildCreateProps_other u hnd hk1 hk2 hkv

theorem C9_roundtrip_witness :
    (([(("label" : String), Value.str "Thing"), ("uri", .str "z"),
       ("a", .int 1), ("b", .str "x")].map Prod.fst).Nodup) ∧
    (∃ t : TNode, (create_node gEmpty [("label", .str "Thing"), ("uri", .str "z"),
        ("a", .int 1), ("b", .str "x")]).1 = .ok t ∧
      get_node_by_uri (create_node gEmpty [("label", .str "Thing"), ("uri", .str "z"),
        ("a", .int 1), ("b", .str "x")]).2 "z" = some t ∧
      t.uri = "z" ∧ t.label = (Value.str "Thing").toStr ∧
      ∃ node : Node, (create_node gEmpty [("label", .str "Thing"), ("uri", .str "z"),
          ("a", .int 1), ("b", .str "x")]).2.nodes = gEmpty.nodes ++ [node] ∧
        node.label = (Value.str "Thing").toStr ∧ node.uriVal = some (.str "z") ∧
        ∀ k v, k ≠ "label" → k ≠ "uri" →
          getProp [("label", .str "Thing"), ("uri", .str "z"),
            ("a", .int 1), ("b", .str "x")] k = some v →
          getProp node.props k = some v) :=
  ⟨by decide,
   C9_create_get_roundtrip gEmpty
     [("label", .str "Thing"), ("uri", .str "z"), ("a", .int 1), ("b", .str "x")]
     "z" (.str "Thing") (by decide) (by decide) (by decide) (by decide) (by decide)
     (by intro n hn; cases hn)⟩

/-! ## C8: update_node keeps uri and label and merges non-destructively -/

theorem map_eq_self_of {α : Type} {l : List α} {f : α → α}
    (h : ∀ a ∈ l, f a = a) : l.map f = l := by
  induction l with
  | nil => rfl
  | cons x rest ih =>
    rw [List.map_cons, h x (List.mem_cons_self x rest),
        ih (fun a ha => h a (List.mem_cons_of_mem x ha))]

theorem update_node_nodes_shape (g : Graph) (u : String) (params : List (String × Value)) :
    (update_node g u params).2.nodes =
      g.nodes.map (fun m => if m.matchesUri u
        then ⟨m.label, mergeProps m.props
          (params.filter (fun kv => kv.1 != "uri" && kv.1 != "label"))⟩
        else m) := by
  simp only [update_node]
  by_cases h0 : params.isEmpty
  · rw [if_pos h0]
    have hp : params = [] := List.isEmpty_iff.mp h0
    subst hp
    show g.nodes = _
    rw [List.filter_nil]
    symm
    apply map_eq_self_of
    intro m hm
    show (if m.matchesUri u = true then m else m) = m
    exact ite_self m
  · rw [if_neg h0]
    by_cases h1 : (params.filter (fun kv => kv.1 != "uri" && kv.1 != "label")).isEmpty
    · rw [if_pos h1]
      have hp : params.filter (fun kv => kv.1 != "uri" && kv.1 != "label") = [] :=
        List.isEmpty_iff.mp h1
      rw [hp]
      show g.nodes = _
      symm
      apply map_eq_self_of
      intro m hm
      show (if m.matchesUri u = true then m else m) = m
      exact ite_self m
    · rw [if_neg h1]
      cases hfind : g.nodes.find? (fun n => n.matchesUri u) with
      | none =>
        show g.nodes = _
        symm
        apply map_eq_self_of
        intro m hm
        rw [if_neg]
        rw [List.find?_eq_none] at hfind
        exact hfind m hm
      | some n0 => rfl

/-- C8: for an existing node, `update_node` leaves `uri` and `label`
unchanged (supplied `uri`/`label` entries are ignored), overwrites every
other supplied key, and keeps every unsupplied stored key at its previous
value; no other node is touched. -/
theorem C8_update_node_merge (g : Graph) (u : String) (params : List (String × Value))
    (n : Node) (hn : n ∈ g.nodes) (hu : n.uriKey = some u)
    (hnd : (params.map Prod.fst).Nodup) :
    ((update_node g u params).2.nodes = g.nodes.map (fun m => if m.matchesUri u
        then ⟨m.label, mergeProps m.props
          (params.filter (fun kv => kv.1 != "uri" && kv.1 != "label"))⟩
        else m)) ∧
    (⟨n.label, mergeProps n.props
        (params.filter (fun kv => kv.1 != "uri" && kv.1 != "label"))⟩ : Node) ∈
      (update_node g u params).2.nodes ∧
    getProp (mergeProps n.props
        (params.filter (fun kv => kv.1 != "uri" && kv.1 != "label"))) "uri" =
      getProp n.props "uri" ∧
    (∀ k v, k ≠ "uri" → k ≠ "label" → (k, v) ∈ params →
      getProp (mergeProps n.props
        (params.filter (fun kv => kv.1 != "uri" && kv.1 != "label"))) k = some v) ∧
    (∀ k, (∀ kv ∈ params, kv.1 ≠ k) →
      getProp (mergeProps n.props
        (params.filter (fun kv => kv.1 != "uri" && kv.1 != "label"))) k =
        getProp n.props k) := by
  have heffne : ∀ kv ∈ params.filter (fun kv => kv.1 != "uri" && kv.1 != "label"),
      kv.1 ≠ "uri" ∧ kv.1 ≠ "label" := by
    intro kv hkv
    have hp := List.of_mem_filter hkv
    rw [Bool.and_eq_true, bne_iff_ne, bne_iff_ne] at hp
    exact hp
  refine ⟨update_node_nodes_shape g u params, ?_, ?_, ?_, ?_⟩
  · rw [update_node_nodes_shape g u params]
    apply List.mem_map.mpr
    refine ⟨n, hn, ?_⟩
    rw [if_pos (matchesUri_iff.mpr (uriKey_eq_some_iff.mp hu))]
  · exact getProp_mergeProps_of_not_mem (fun kv hkv => (heffne kv hkv).1) n.props
  · intro k v hk1 hk2 hkv
    have hmemf : (k, v) ∈ params.filter (fun kv => kv.1 != "uri" && kv.1 != "label") := by
      rw [List.mem_filter]
      refine ⟨hkv, ?_⟩
      rw [Bool.and_eq_true, bne_iff_ne, bne_iff_ne]
      exact ⟨hk1, hk2⟩
    have hndf : ((params.filter (fun kv => kv.1 != "uri" && kv.1 != "label")).map
        Prod.fst).Nodup :=
      ((List.filter_sublist params).map Prod.fst).nodup hnd
    exact getProp_mergeProps_of_mem hndf hmemf n.props
  · intro k hknot
    exact getProp_mergeProps_of_not_mem
      (fun kv hkv => hknot kv (List.mem_of_mem_filter hkv)) n.props

theorem C8_witness :
    exNode "Object" "o" "o" ∈ gRecon.nodes ∧
    (exNode "Object" "o" "o").uriKey = some "o" ∧
    (([(("title" : String), Value.str "new"), ("uri", .str "evil"),
       ("extra", .int 7)].map Prod.fst).Nodup) ∧
    (((update_node gRecon "o" [("title", .str "new"), ("uri", .str "evil"),
        ("extra", .int 7)]).2.nodes = gRecon.nodes.map (fun m => if m.matchesUri "o"
        then ⟨m.label, mergeProps m.props
          ([("title", Value.str "new"), ("uri", .str "evil"),
            ("extra", .int 7)].filter (fun kv => kv.1 != "uri" && kv.1 != "label"))⟩
        else m)) ∧
    (⟨(exNode "Object" "o" "o").label, mergeProps (exNode "Object" "o" "o").props
        ([("title", Value.str "new"), ("uri", .str "evil"),
          ("extra", .int 7)].filter (fun kv => kv.1 != "uri" && kv.1 != "label"))⟩ : Node) ∈
      (update_node gRecon "o" [("title", .str "new"), ("uri", .str "evil"),
        ("extra", .int 7)]).2.nodes ∧
    getProp (mergeProps (exNode "Object" "o" "o").props
        ([("title", Value.str "new"), ("uri", .str "evil"),
          ("extra", .int 7)].filter (fun kv => kv.1 != "uri" && kv.1 != "label"))) "uri" =
      getProp (exNode "Object" "o" "o").props "uri" ∧
    (∀ k v, k ≠ "uri" → k ≠ "label" →
      (k, v) ∈ [(("title" : String), Value.str "new"), ("uri", .str "evil"),
        ("extra", .int 7)] →
      getProp (mergeProps (exNode "Object" "o" "o").props
        ([("title", Value.str "new"), ("uri", .str "evil"),
          ("extra", .int 7)].filter (fun kv => kv.1 != "uri" && kv.1 != "label"))) k =
        some v) ∧
    (∀ k, (∀ kv ∈ [(("title" : String), Value.str "new"), ("uri", .str "evil"),
        ("extra", .int 7)], kv.1 ≠ k) →
      getProp (mergeProps (exNode "Object" "o" "o").props
        ([("title", Value.str "new"), ("uri", .str "evil"),
          ("extra", .int 7)].filter (fun kv => kv.1 != "uri" && kv.1 != "label"))) k =
        getProp (exNode "Object" "o" "o").props k)) :=
  ⟨by decide, by decide, by decide,
   C8_update_node_merge gRecon "o"
     [("title", .str "new"), ("uri", .str "evil"), ("extra", .int 7)]
     (exNode "Object" "o" "o") (by decide) (by decide) (by decide)⟩

/-! ## C3: cascading class deletion -/

theorem delete_node_nodes (g : Graph) (u : String) :
    ((delete_node_by_uri g u).2).nodes = g.nodes.filter (fun n => !(n.matchesUri u)) := by
  rw [delete_node_by_uri]
  by_cases h : g.nodes.any (fun n => n.matchesUri u) = true
  · rw [if_pos h]
  · rw [if_neg h]
    symm
    rw [List.filter_eq_self]
    intro n hn
    rw [Bool.not_eq_true']
    rcases hb : n.matchesUri u with _ | _
    · rfl
    · exact absurd (List.any_eq_true.mpr ⟨n, hn, hb⟩) h

theorem delete_node_arcs_subset (g : Graph) (u : String) :
    ∀ a ∈ ((delete_node_by_uri g u).2).arcs, a ∈ g.arcs := by
  rw [delete_node_by_uri]
  by_cases h : g.nodes.any (fun n => n.matchesUri u) = true
  · rw [if_pos h]
    exact fun a ha => List.mem_of_mem_filter ha
  · rw [if_neg h]
    exact fun a ha => ha

theorem mem_foldDeleteNodes_nodes {us : List String} {g : Graph} {n : Node} :
    n ∈ (foldDeleteNodes us g).nodes ↔
      n ∈ g.nodes ∧ ∀ u ∈ us, ¬ n.matchesUri u = true := by
  induction us generalizing g with
  | nil => simp [foldDeleteNodes]
  | cons u rest ih =>
    show n ∈ (foldDeleteNodes rest (delete_node_by_uri g u).2).nodes ↔ _
    rw [ih]
    rw [delete_node_nodes, List.mem_filter]
    constructor
    · rintro ⟨⟨hn, hm⟩, hrest⟩
      refine ⟨hn, ?_⟩
      intro v hv
      rcases List.mem_cons.mp hv with rfl | hv2
      · simpa using hm
      · exact hrest v hv2
    · rintro ⟨hn, hall⟩
      refine ⟨⟨hn, ?_⟩, fun v hv => hall v (List.mem_cons_of_mem u hv)⟩
      simpa using hall u (List.mem_cons_self u rest)

theorem delete_node_endpoints (g : Graph) (u : String)
    (h : ∀ a ∈ g.arcs, (∃ m ∈ g.nodes, m.uriKey = some a.fromUri) ∧
      (∃ m ∈ g.nodes, m.uriKey = some a.toUri)) :
    ∀ a ∈ ((delete_node_by_uri g u).2).arcs,
      (∃ m ∈ ((delete_node_by_uri g u).2).nodes, m.uriKey = some a.fromUri) ∧
      (∃ m ∈ ((delete_node_by_uri g u).2).nodes, m.uriKey = some a.toUri) := by
  intro a ha
  have hnodes := delete_node_nodes g u
  rw [delete_node_by_uri] at ha ⊢
  by_cases hg : g.nodes.any (fun n => n.matchesUri u) = true
  · rw [if_pos hg] at ha ⊢
    have hmem := List.mem_of_mem_filter ha
    have hcond := List.of_mem_filter ha
    rw [Bool.not_eq_true', Bool.or_eq_false_iff, beq_eq_false_iff_ne, beq_eq_false_iff_ne]
      at hcond
    obtain ⟨hfrom, hto⟩ := hcond
    obtain ⟨⟨mf, hmf, hmfu⟩, ⟨mt, hmt, hmtu⟩⟩ := h a hmem
    constructor
    · refine ⟨mf, List.mem_filter.mpr ⟨hmf, ?_⟩, hmfu⟩
      rw [Bool.not_eq_true', Bool.eq_false_iff]
      intro hc
      have := uriKey_eq_some_iff.mpr (matchesUri_iff.mp hc)
      rw [hmfu] at this
      exact hfrom (Option.some.inj this)
    · refine ⟨mt, List.mem_filter.mpr ⟨hmt, ?_⟩, hmtu⟩
      rw [Bool.not_eq_true', Bool.eq_false_iff]
      intro hc
      have := uriKey_eq_some_iff.mpr (matchesUri_iff.mp hc)
      rw [hmtu] at this
      exact hto (Option.some.inj this)
  · rw [if_neg hg] at ha ⊢
    exact h a ha

theorem foldDeleteNodes_endpoints {us : List String} {g : Graph}
    (h : ∀ a ∈ g.arcs, (∃ m ∈ g.nodes, m.uriKey = some a.fromUri) ∧
      (∃ m ∈ g.nodes, m.uriKey = some a.toUri)) :
    ∀ a ∈ (foldDeleteNodes us g).arcs,
      (∃ m ∈ (foldDeleteNodes us g).nodes, m.uriKey = some a.fromUri) ∧
      (∃ m ∈ (foldDeleteNodes us g).nodes, m.uriKey = some a.toUri) := by
  induction us generalizing g with
  | nil => exact h
  | cons u rest ih =>
    show ∀ a ∈ (foldDeleteNodes rest (delete_node_by_uri g u).2).arcs, _
    exact ih (delete_node_endpoints g u h)

theorem mem_descClassUris {g : Graph} {uri x : String} :
    x ∈ descClassUris g uri ↔
      ∃ nd ∈ g.nodes, nd.label = "Class" ∧ nd.uriVal = some (.str x) ∧
        x ∈ descReach g uri := by
  rw [descClassUris, List.mem_dedup, List.mem_map]
  constructor
  · rintro ⟨nd, hnd, rfl⟩
    have hmem := List.mem_of_mem_filter hnd
    have hcond := List.of_mem_filter hnd
    rw [Bool.and_eq_true, beq_iff_eq] at hcond
    obtain ⟨hlab, hmatch⟩ := hcond
    cases huv : nd.uriVal with
    | none => rw [huv] at hmatch; cases hmatch
    | some v =>
      cases v with
      | str y =>
        rw [huv] at hmatch
        have hy : (descReach g uri).contains y = true := hmatch
        refine ⟨nd, hmem, hlab, ?_, ?_⟩
        · rw [strProp_uri_of_uriVal huv, huv]
        · rw [strProp_uri_of_uriVal huv]
          exact List.mem_of_elem_eq_true hy
      | int n => rw [huv] at hmatch; cases hmatch
      | bool b => rw [huv] at hmatch; cases hmatch
      | null => rw [huv] at hmatch; cases hmatch
  · rintro ⟨nd, hnd, hlab, huv, hx⟩
    refine ⟨nd, ?_, strProp_uri_of_uriVal huv⟩
    rw [List.mem_filter]
    refine ⟨hnd, ?_⟩
    rw [Bool.and_eq_true, beq_iff_eq]
    refine ⟨hlab, ?_⟩
    rw [huv]
    show (descReach g uri).contains x = true
    exact List.elem_eq_true_of_mem hx

theorem mem_instanceUris_of {g : Graph} (hwf : Wf g) {cus : List String}
    {n : Node} {x : String} {a : Arc}
    (hn : n ∈ g.nodes) (hlab : n.label = "Object") (hx : n.uriKey = some x)
    (ha : a ∈ g.arcs) (hty : a.type = "INSTANCEOF") (hfrom : a.fromUri = x)
    (hto : a.toUri ∈ cus) {ct : Node} (hct : ct ∈ g.nodes) (hctlab : ct.label = "Class")
    (hctu : ct.uriKey = some a.toUri) :
    x ∈ instanceUris g cus := by
  rw [instanceUris, List.mem_flatMap]
  refine ⟨a, ha, ?_⟩
  rw [if_pos (by
    rw [Bool.and_eq_true, beq_iff_eq]
    exact ⟨hty, List.elem_eq_true_of_mem hto⟩)]
  rw [hfrom, find?_matchesUri_eq hwf.2.1 hn hx, find?_matchesUri_eq hwf.2.1 hct hctu]
  show x ∈ (if (n.label == "Object" && ct.label == "Class") = true
    then [n.strProp "uri"] else [])
  rw [if_pos (by rw [Bool.and_eq_true, beq_iff_eq, beq_iff_eq]; exact ⟨hlab, hctlab⟩)]
  have : n.strProp "uri" = x := strProp_uri_of_uriVal (uriKey_eq_some_iff.mp hx)
  rw [this]
  exact List.mem_singleton.mpr rfl

/-- C3: when the inclusive descendant closure of `uri` is non-empty,
`delete_class` returns `true`, removes every node whose uri lies in the
closure (in particular every Class there), removes every Object that held
an INSTANCEOF edge to any class of the closure, and leaves no dangling
edge: every remaining arc still has both endpoints backed by remaining
nodes. -/
theorem C3_delete_class_cascade (g : Graph) (uri : String)
    (hwf : Wf g) (hne : descClassUris g uri ≠ []) :
    (delete_class g uri).1 = true ∧
    (∀ n ∈ (delete_class g uri).2.nodes, ∀ x, n.uriKey = some x →
      x ∉ descClassUris g uri) ∧
    (∀ n ∈ (delete_class g uri).2.nodes, n.label = "Object" →
      ¬ ∃ a ∈ g.arcs, a.type = "INSTANCEOF" ∧
        (∃ x, n.uriKey = some x ∧ a.fromUri = x) ∧ a.toUri ∈ descClassUris g uri) ∧
    (∀ a ∈ (delete_class g uri).2.arcs,
      (∃ m ∈ (delete_class g uri).2.nodes, m.uriKey = some a.fromUri) ∧
      (∃ m ∈ (delete_class g uri).2.nodes, m.uriKey = some a.toUri)) := by
  have hie : (descClassUris g uri).isEmpty = false := by
    rcases hd : descClassUris g uri with _ | ⟨y, ys⟩
    · exact absurd hd hne
    · rfl
  have hshape : delete_class g uri =
      (true, foldDeleteNodes (descClassUris g uri)
        (foldDeleteNodes (instanceUris g (descClassUris g uri)) g)) := by
    rw [delete_class, hie]
    rfl
  refine ⟨by rw [hshape], ?_, ?_, ?_⟩
  · intro n hn x hx hmem
    rw [hshape] at hn
    have h2 := (mem_foldDeleteNodes_nodes.mp hn).2 x hmem
    exact h2 (matchesUri_iff.mpr (uriKey_eq_some_iff.mp hx))
  · intro n hn hlab ⟨a, ha, hty, ⟨x, hx, hfrom⟩, hto⟩
    rw [hshape] at hn
    have hn1 := (mem_foldDeleteNodes_nodes.mp hn).1
    have hn0 := (mem_foldDeleteNodes_nodes.mp hn1).1
    obtain ⟨ct, hct, hctlab, hctu, _⟩ := mem_descClassUris.mp hto
    have hinst : x ∈ instanceUris g (descClassUris g uri) :=
      mem_instanceUris_of hwf hn0 hlab hx ha hty hfrom hto hct hctlab
        (uriKey_eq_some_iff.mpr hctu)
    have h2 := (mem_foldDeleteNodes_nodes.mp hn1).2 x hinst
    exact h2 (matchesUri_iff.mpr (uriKey_eq_some_iff.mp hx))
  · rw [hshape]
    exact foldDeleteNodes_endpoints (foldDeleteNodes_endpoints hwf.2.2.2.2)

theorem C3_witness :
    Wf gCascade ∧ descClassUris gCascade "P" ≠ [] ∧
    ((delete_class gCascade "P").1 = true ∧
    (∀ n ∈ (delete_class gCascade "P").2.nodes, ∀ x, n.uriKey = some x →
      x ∉ descClassUris gCascade "P") ∧
    (∀ n ∈ (delete_class gCascade "P").2.nodes, n.label = "Object" →
      ¬ ∃ a ∈ gCascade.arcs, a.type = "INSTANCEOF" ∧
        (∃ x, n.uriKey = some x ∧ a.fromUri = x) ∧ a.toUri ∈ descClassUris gCascade "P") ∧
    (∀ a ∈ (delete_class gCascade "P").2.arcs,
      (∃ m ∈ (delete_class gCascade "P").2.nodes, m.uriKey = some a.fromUri) ∧
      (∃ m ∈ (delete_class gCascade "P").2.nodes, m.uriKey = some a.toUri))) :=
  ⟨by decide, by decide, C3_delete_class_cascade gCascade "P" (by decide) (by decide)⟩

/-! ## C1: signature resolution -/

theorem hasArc_iff {g : Graph} {ty f t : String} :
    hasArc g ty f t = true ↔ ∃ a ∈ g.arcs, a.type = ty ∧ a.fromUri = f ∧ a.toUri = t := by
  rw [hasArc, List.any_eq_true]
  constructor
  · rintro ⟨a, ha, hc⟩
    rw [Bool.and_eq_true, Bool.and_eq_true, beq_iff_eq, beq_iff_eq, beq_iff_eq] at hc
    exact ⟨a, ha, hc.1.1, hc.1.2, hc.2⟩
  · rintro ⟨a, ha, h1, h2, h3⟩
    refine ⟨a, ha, ?_⟩
    rw [Bool.and_eq_true, Bool.and_eq_true, beq_iff_eq, beq_iff_eq, beq_iff_eq]
    exact ⟨⟨h1, h2⟩, h3⟩

theorem keyedCheck_iff {f : String → Bool} {n : Node} :
    keyedCheck f n = true ↔ ∃ u, n.uriKey = some u ∧ f u = true := by
  rw [keyedCheck]
  cases h : n.uriKey with
  | none => simp
  | some u => simp

theorem domainHits_iff {g : Graph} {anc : List String} {d : Node} :
    domainHits g anc d = true ↔
      ∃ s ∈ g.nodes, s.label = "Class" ∧ ∃ su du,
        s.uriKey = some su ∧ d.uriKey = some du ∧
        su ∈ anc ∧ hasArc g "DOMAIN" du su = true := by
  rw [domainHits, List.any_eq_true]
  constructor
  · rintro ⟨s, hs, hc⟩
    rw [Bool.and_eq_true, beq_iff_eq] at hc
    obtain ⟨hlab, hkc⟩ := hc
    obtain ⟨su, hsu, hkc2⟩ := keyedCheck_iff.mp hkc
    obtain ⟨du, hdu, hkc3⟩ := keyedCheck_iff.mp hkc2
    rw [Bool.and_eq_true] at hkc3
    exact ⟨s, hs, hlab, su, du, hsu, hdu, List.mem_of_elem_eq_true hkc3.1, hkc3.2⟩
  · rintro ⟨s, hs, hlab, su, du, hsu, hdu, hmem, harc⟩
    refine ⟨s, hs, ?_⟩
    rw [Bool.and_eq_true, beq_iff_eq]
    refine ⟨hlab, ?_⟩
    rw [keyedCheck_iff]
    refine ⟨su, hsu, ?_⟩
    rw [keyedCheck_iff]
    refine ⟨du, hdu, ?_⟩
    rw [Bool.and_eq_true]
    exact ⟨List.elem_eq_true_of_mem hmem, harc⟩

theorem rangeArc_iff {g : Graph} {d r : Node} :
    rangeArc g d r = true ↔ ∃ du ru, d.uriKey = some du ∧ r.uriKey = some ru ∧
      hasArc g "RANGE" du ru = true := by
  rw [rangeArc]
  constructor
  · intro h
    obtain ⟨du, hdu, h2⟩ := keyedCheck_iff.mp h
    obtain ⟨ru, hru, h3⟩ := keyedCheck_iff.mp h2
    exact ⟨du, ru, hdu, hru, h3⟩
  · rintro ⟨du, ru, hdu, hru, h3⟩
    rw [keyedCheck_iff]
    exact ⟨du, hdu, keyedCheck_iff.mpr ⟨ru, hru, h3⟩⟩

theorem mem_sigParams {g : Graph} {anc : List String} {p : Param} :
    p ∈ sigParams g anc ↔ ∃ d ∈ g.nodes, d.label = "DatatypeProperty" ∧
      domainHits g anc d = true ∧ p = ⟨d.strProp "title", d.strProp "uri"⟩ := by
  rw [sigParams, List.mem_map]
  constructor
  · rintro ⟨d, hd, rfl⟩
    have hmem := List.mem_of_mem_filter hd
    have hcond := List.of_mem_filter hd
    rw [Bool.and_eq_true, beq_iff_eq] at hcond
    exact ⟨d, hmem, hcond.1, hcond.2, rfl⟩
  · rintro ⟨d, hd, hlab, hdom, rfl⟩
    refine ⟨d, List.mem_filter.mpr ⟨hd, ?_⟩, rfl⟩
    rw [Bool.and_eq_true, beq_iff_eq]
    exact ⟨hlab, hdom⟩

theorem mem_sigObjParams {g : Graph} {anc : List String} {q : ObjParam} :
    q ∈ sigObjParams g anc ↔ ∃ d ∈ g.nodes, d.label = "ObjectProperty" ∧
      domainHits g anc d = true ∧ ∃ r ∈ g.nodes, r.label = "Class" ∧
        rangeArc g d r = true ∧
        q = ⟨d.strProp "title", d.strProp "uri", r.strProp "uri", 1⟩ := by
  rw [sigObjParams, List.mem_flatMap]
  constructor
  · rintro ⟨d, hd, hq⟩
    by_cases hc : (d.label == "ObjectProperty" && domainHits g anc d) = true
    · rw [if_pos hc] at hq
      rw [List.mem_map] at hq
      obtain ⟨r, hr, rfl⟩ := hq
      rw [Bool.and_eq_true, beq_iff_eq] at hc
      have hrmem := List.mem_of_mem_filter hr
      have hrcond := List.of_mem_filter hr
      rw [Bool.and_eq_true, beq_iff_eq] at hrcond
      exact ⟨d, hd, hc.1, hc.2, r, hrmem, hrcond.1, hrcond.2, rfl⟩
    · rw [if_neg hc] at hq
      cases hq
  · rintro ⟨d, hd, hlab, hdom, r, hr, hrlab, hrarc, rfl⟩
    refine ⟨d, hd, ?_⟩
    rw [if_pos (by rw [Bool.and_eq_true, beq_iff_eq]; exact ⟨hlab, hdom⟩)]
    rw [List.mem_map]
    refine ⟨r, List.mem_filter.mpr ⟨hr, ?_⟩, rfl⟩
    rw [Bool.and_eq_true, beq_iff_eq]
    exact ⟨hrlab, hrarc⟩

theorem filterMap_uriKey_eq_map_strProp {l : List Node}
    (h : ∀ n ∈ l, n.uriKey.isSome) :
    l.filterMap Node.uriKey = l.map (fun n => n.strProp "uri") := by
  induction l with
  | nil => rfl
  | cons n rest ih =>
    rw [List.filterMap_cons, List.map_cons]
    cases hk : n.uriKey with
    | none =>
      have h2 := h n (List.mem_cons_self n rest)
      rw [hk] at h2
      cases h2
    | some u =>
      have hs : n.strProp "uri" = u := strProp_uri_of_uriVal (uriKey_eq_some_iff.mp hk)
      rw [hs, ih (fun m hm => h m (List.mem_cons_of_mem n hm))]

theorem nodup_map_strProp_uri {g : Graph} (hwf : Wf g) {l : List Node}
    (hsub : l.Sublist g.nodes) : (l.map (fun n => n.strProp "uri")).Nodup := by
  have hall : ∀ n ∈ l, n.uriKey.isSome := fun n hn => hwf.1 n (hsub.subset hn)
  rw [← filterMap_uriKey_eq_map_strProp hall]
  exact (hsub.filterMap Node.uriKey).nodup hwf.2.1

theorem sigParams_uris_nodup {g : Graph} (hwf : Wf g) (anc : List String) :
    ((sigParams g anc).map (fun p => p.uri)).Nodup := by
  rw [sigParams, List.map_map]
  exact nodup_map_strProp_uri hwf (List.filter_sublist g.nodes)

theorem sublist_flatMap_of_le_one {α β : Type} (l : List α) (f : α → List β) (gf : α → β)
    (h : ∀ x ∈ l, f x = [] ∨ f x = [gf x]) : (l.flatMap f).Sublist (l.map gf) := by
  induction l with
  | nil => simp
  | cons x rest ih =>
    rw [List.flatMap_cons, List.map_cons]
    rcases h x (List.mem_cons_self x rest) with hx | hx
    · rw [hx, List.nil_append]
      exact (ih (fun y hy => h y (List.mem_cons_of_mem x hy))).cons (gf x)
    · rw [hx]
      show List.Sublist (gf x :: rest.flatMap f) (gf x :: rest.map gf)
      exact (ih (fun y hy => h y (List.mem_cons_of_mem x hy))).cons₂ (gf x)

theorem sigObjParams_uris_nodup {g : Graph} (hwf : Wf g) (anc : List String)
    (hrange : ∀ d ∈ g.nodes,
      (g.nodes.filter (fun r => r.label == "Class" && rangeArc g d r)).length ≤ 1) :
    ((sigObjParams g anc).map (fun q => q.uri)).Nodup := by
  rw [sigObjParams, List.map_flatMap]
  have hsub : (g.nodes.flatMap (fun d =>
      ((if d.label == "ObjectProperty" && domainHits g anc d then
        (g.nodes.filter (fun r => r.label == "Class" && rangeArc g d r)).map
          (fun r => (⟨d.strProp "title", d.strProp "uri", r.strProp "uri", 1⟩ : ObjParam))
      else []).map (fun q => q.uri)))).Sublist
      (g.nodes.map (fun n => n.strProp "uri")) := by
    apply sublist_flatMap_of_le_one
    intro d hd
    by_cases hc : (d.label == "ObjectProperty" && domainHits g anc d) = true
    · rw [if_pos hc]
      rcases hf : g.nodes.filter (fun r => r.label == "Class" && rangeArc g d r) with
        _ | ⟨r0, rest2⟩
      · left
        rw [hf]
        rfl
      · have hlen := hrange d hd
        rw [hf] at hlen
        rcases hr2 : rest2 with _ | ⟨r1, rest3⟩
        · right
          rw [hf, hr2]
          rfl
        · rw [hr2] at hlen
          simp at hlen
    · rw [if_neg hc]
      left
      rfl
  exact hsub.nodup (nodup_map_strProp_uri hwf (List.Sublist.refl g.nodes))

/-- C1: for a well-formed graph whose object properties each have at most
one RANGE Class (the data-model invariant), `collect_signature` succeeds
on every Class uri and returns exactly the DatatypeProperties domained on
some Class in the reflexive-transitive SUBCLASSOF closure of that class,
and exactly the ObjectProperties so domained together with their RANGE
target Class uri; each property occurs at most once by uri, so diamond
inheritance introduces no duplicates. -/
theorem C1_collect_signature (g : Graph) (cu : String) (c : TNode)
    (hwf : Wf g) (hclass : get_class g cu = some c)
    (hrange : ∀ d ∈ g.nodes,
      (g.nodes.filter (fun r => r.label == "Class" && rangeArc g d r)).length ≤ 1) :
    ∃ sig, collect_signature g cu = .ok sig ∧
      (∀ p : Param, p ∈ sig.params ↔ ∃ d ∈ g.nodes, d.label = "DatatypeProperty" ∧
        p = ⟨d.strProp "title", d.strProp "uri"⟩ ∧
        ∃ s ∈ g.nodes, s.label = "Class" ∧ ∃ su du, s.uriKey = some su ∧
          d.uriKey = some du ∧ Relation.ReflTransGen (subArcRel g) cu su ∧
          (∃ a ∈ g.arcs, a.type = "DOMAIN" ∧ a.fromUri = du ∧ a.toUri = su)) ∧
      ((sig.params.map (fun p => p.uri)).Nodup) ∧
      (∀ q : ObjParam, q ∈ sig.obj_params ↔ ∃ d ∈ g.nodes, d.label = "ObjectProperty" ∧
        (∃ s ∈ g.nodes, s.label = "Class" ∧ ∃ su du, s.uriKey = some su ∧
          d.uriKey = some du ∧ Relation.ReflTransGen (subArcRel g) cu su ∧
          (∃ a ∈ g.arcs, a.type = "DOMAIN" ∧ a.fromUri = du ∧ a.toUri = su)) ∧
        (∃ r ∈ g.nodes, r.label = "Class" ∧
          q = ⟨d.strProp "title", d.strProp "uri", r.strProp "uri", 1⟩ ∧
          ∃ du ru, d.uriKey = some du ∧ r.uriKey = some ru ∧
            (∃ a ∈ g.arcs, a.type = "RANGE" ∧ a.fromUri = du ∧ a.toUri = ru))) ∧
      ((sig.obj_params.map (fun q => q.uri)).Nodup) := by
  have hnn : ¬ (get_class g cu).isNone = true := by rw [hclass]; simp
  refine ⟨⟨sigParams g (ancUris g cu), sigObjParams g (ancUris g cu)⟩, ?_, ?_,
    sigParams_uris_nodup hwf _, ?_, sigObjParams_uris_nodup hwf _ hrange⟩
  · rw [collect_signature, if_neg hnn]
  · intro p
    rw [mem_sigParams]
    constructor
    · rintro ⟨d, hd, hlab, hdom, rfl⟩
      obtain ⟨s, hs, hslab, su, du, hsu, hdu, hanc, harc⟩ := domainHits_iff.mp hdom
      obtain ⟨a, ha, h1, h2, h3⟩ := hasArc_iff.mp harc
      exact ⟨d, hd, hlab, rfl, s, hs, hslab, su, du, hsu, hdu, mem_ancUris.mp hanc,
        a, ha, h1, h2, h3⟩
    · rintro ⟨d, hd, hlab, rfl, s, hs, hslab, su, du, hsu, hdu, hrtg, a, ha, h1, h2, h3⟩
      exact ⟨d, hd, hlab, domainHits_iff.mpr ⟨s, hs, hslab, su, du, hsu, hdu,
        mem_ancUris.mpr hrtg, hasArc_iff.mpr ⟨a, ha, h1, h2, h3⟩⟩, rfl⟩
  · intro q
    rw [mem_sigObjParams]
    constructor
    · rintro ⟨d, hd, hlab, hdom, r, hr, hrlab, hrarc, rfl⟩
      obtain ⟨s, hs, hslab, su, du, hsu, hdu, hanc, harc⟩ := domainHits_iff.mp hdom
      obtain ⟨a, ha, h1, h2, h3⟩ := hasArc_iff.mp harc
      obtain ⟨du2, ru, hdu2, hru, hr3⟩ := rangeArc_iff.mp hrarc
      obtain ⟨a2, ha2, h4, h5, h6⟩ := hasArc_iff.mp hr3
      exact ⟨d, hd, hlab, ⟨s, hs, hslab, su, du, hsu, hdu, mem_ancUris.mp hanc,
        a, ha, h1, h2, h3⟩, r, hr, hrlab, rfl, du2, ru, hdu2, hru, a2, ha2, h4, h5, h6⟩
    · rintro ⟨d, hd, hlab, ⟨s, hs, hslab, su, du, hsu, hdu, hrtg, a, ha, h1, h2, h3⟩,
        r, hr, hrlab, rfl, du2, ru, hdu2, hru, a2, ha2, h4, h5, h6⟩
      exact ⟨d, hd, hlab, domainHits_iff.mpr ⟨s, hs, hslab, su, du, hsu, hdu,
        mem_ancUris.mpr hrtg, hasArc_iff.mpr ⟨a, ha, h1, h2, h3⟩⟩,
        r, hr, hrlab, rangeArc_iff.mpr ⟨du2, ru, hdu2, hru,
          hasArc_iff.mpr ⟨a2, ha2, h4, h5, h6⟩⟩, rfl⟩

theorem C1_witness :
    Wf gDiamond ∧ get_class gDiamond "A" = some ⟨"A", "A", "", "Class"⟩ ∧
    ∃ sig, collect_signature gDiamond "A" = .ok sig := by
  refine ⟨by decide, by decide, ?_⟩
  obtain ⟨sig, hsig, -, -, -, -⟩ := C1_collect_signature gDiamond "A"
    ⟨"A", "A", "", "Class"⟩ (by decide) (by decide) (by decide)
  exact ⟨sig, hsig⟩

/-! ## Reconciliation machinery (shared by C2 and C6) -/

theorem update_object_run (g : Graph) (uri : String) (t d : Option String)
    (props : List (String × Value)) (ops : List DesiredRel) (cu : String) (sig : Signature)
    (ob : TNode)
    (hobj : get_object g uri = some ob)
    (hrow : (objectClassRows g uri).head? = some cu)
    (hcune : (cu == "") = false)
    (hsig : collect_signature g cu = .ok sig)
    (hprops : props.find?
      (fun kv => !((sig.params.map (fun p => p.uri)).contains kv.1)) = none)
    (hops : ops.findSome? (opError g (sig.obj_params.map (fun p => p.uri))) = none) :
    update_object g uri t d props (some ops) =
      match reconCreFold uri (reconDelFold sig (opKeys ops) g (currentRels g uri)) ops with
      | (.error e, h) => (.error e, h)
      | (.ok _, h) => update_node h uri (mergeProps (baseParams t d) props) := by
  rw [update_object, hobj, hrow]
  simp only [hcune, Bool.false_eq_true, if_false]
  rw [hsig]
  simp only [hprops, hops]

theorem reconDeleteStep_eq (sig : Signature) (newSet : List (String × String × Int))
    (h : Graph) (r : CurRel) :
    reconDeleteStep sig newSet h r =
      if delDecision sig newSet r then (delete_arc_by_id h r.arcId).2 else h := by
  rw [reconDeleteStep, delDecision]
  cases sig.obj_params.find? (fun p => p.title == r.relType) with
  | none => rfl
  | some p =>
    by_cases hc : newSet.contains (p.uri, r.targetUri, r.direction) = true <;>
      simp [hc]

theorem reconDeleteStep_frame (sig : Signature) (newSet : List (String × String × Int))
    (g : Graph) (r : CurRel) :
    (reconDeleteStep sig newSet g r).nodes = g.nodes ∧
    (reconDeleteStep sig newSet g r).nextId = g.nextId ∧
    (reconDeleteStep sig newSet g r).uriSeed = g.uriSeed ∧
    (reconDeleteStep sig newSet g r).arcCreations = g.arcCreations := by
  rw [reconDeleteStep_eq]
  by_cases hc : delDecision sig newSet r = true
  · rw [if_pos hc]; exact ⟨rfl, rfl, rfl, rfl⟩
  · rw [if_neg hc]; exact ⟨rfl, rfl, rfl, rfl⟩

theorem reconDelFold_frame (sig : Signature) (newSet : List (String × String × Int))
    (rs : List CurRel) (g : Graph) :
    (reconDelFold sig newSet g rs).nodes = g.nodes ∧
    (reconDelFold sig newSet g rs).nextId = g.nextId ∧
    (reconDelFold sig newSet g rs).uriSeed = g.uriSeed ∧
    (reconDelFold sig newSet g rs).arcCreations = g.arcCreations := by
  induction rs generalizing g with
  | nil => exact ⟨rfl, rfl, rfl, rfl⟩
  | cons r rest ih =>
    have hstep := reconDeleteStep_frame sig newSet g r
    have hrest := ih (reconDeleteStep sig newSet g r)
    exact ⟨hrest.1.trans hstep.1, hrest.2.1.trans hstep.2.1,
      hrest.2.2.1.trans hstep.2.2.1, hrest.2.2.2.trans hstep.2.2.2⟩

theorem reconDelFold_arcs_mem (sig : Signature) (newSet : List (String × String × Int))
    (rs : List CurRel) (g : Graph) {a : Arc} :
    a ∈ (reconDelFold sig newSet g rs).arcs ↔
      a ∈ g.arcs ∧ ∀ r ∈ rs, delDecision sig newSet r = true → r.arcId ≠ a.id := by
  induction rs generalizing g with
  | nil => simp [reconDelFold]
  | cons r rest ih =>
    show a ∈ (reconDelFold sig newSet (reconDeleteStep sig newSet g r) rest).arcs ↔ _
    rw [ih]
    rw [reconDeleteStep_eq]
    by_cases hc : delDecision sig newSet r = true
    · rw [if_pos hc]
      simp only [delete_arc_by_id]
      constructor
      · rintro ⟨ha, hrest⟩
        have hmem := List.mem_of_mem_filter ha
        have hcond := List.of_mem_filter ha
        rw [bne_iff_ne] at hcond
        refine ⟨hmem, ?_⟩
        intro r2 hr2 hd2
        rcases List.mem_cons.mp hr2 with rfl | hr2b
        · exact fun he => hcond he.symm
        · exact hrest r2 hr2b hd2
      · rintro ⟨ha, hall⟩
        refine ⟨List.mem_filter.mpr ⟨ha, ?_⟩,
          fun r2 hr2 hd2 => hall r2 (List.mem_cons_of_mem r hr2) hd2⟩
        rw [bne_iff_ne]
        exact fun he => hall r (List.mem_cons_self r rest) hc he.symm
    · rw [if_neg hc]
      constructor
      · rintro ⟨ha, hrest⟩
        refine ⟨ha, ?_⟩
        intro r2 hr2 hd2
        rcases List.mem_cons.mp hr2 with rfl | hr2b
        · exact absurd hd2 hc
        · exact hrest r2 hr2b hd2
      · rintro ⟨ha, hall⟩
        exact ⟨ha, fun r2 hr2 hd2 => hall r2 (List.mem_cons_of_mem r hr2) hd2⟩

theorem reconDelFold_id (sig : Signature) (newSet : List (String × String × Int))
    {rs : List CurRel} (g : Graph)
    (h : ∀ r ∈ rs, delDecision sig newSet r = false) :
    reconDelFold sig newSet g rs = g := by
  induction rs generalizing g with
  | nil => rfl
  | cons r rest ih =>
    show reconDelFold sig newSet (reconDeleteStep sig newSet g r) rest = g
    rw [reconDeleteStep_eq, if_neg (by
      rw [h r (List.mem_cons_self r rest)]
      exact Bool.false_ne_true)]
    exact ih g (fun r2 hr2 => h r2 (List.mem_cons_of_mem r hr2))

theorem reconDelFold_arcs_subset (sig : Signature) (newSet : List (String × String × Int))
    (rs : List CurRel) (g : Graph) :
    ∀ a ∈ (reconDelFold sig newSet g rs).arcs, a ∈ g.arcs :=
  fun a ha => ((reconDelFold_arcs_mem sig newSet rs g).mp ha).1

theorem reconCreateStep_create1 (uri : String) (g : Graph) (op : DesiredRel)
    (hu : g.nodes.any (fun n => n.matchesUri uri) = true)
    (htgt : g.nodes.any (fun n => n.matchesUri op.obj_uri) = true)
    (hne : (relTitleOf g op.relation_uri == "") = false)
    (hdir : (op.direction == 1) = true)
    (hchk : (g.arcs.filter (fun a => a.fromUri == uri && a.toUri == op.obj_uri &&
      a.type == relTitleOf g op.relation_uri)).isEmpty = true) :
    reconCreateStep uri (.ok (), g) op =
      (.ok (), {g with
        arcs := g.arcs ++ [⟨g.nextId, relTitleOf g op.relation_uri, uri, op.obj_uri⟩],
        nextId := g.nextId + 1, arcCreations := g.arcCreations + 1}) := by
  simp only [reconCreateStep, hdir, if_true, hchk, create_arc, hne, Bool.false_eq_true,
    if_false, hu, htgt, Bool.and_self]

theorem reconCreateStep_skip1 (uri : String) (g : Graph) (op : DesiredRel)
    (hdir : (op.direction == 1) = true)
    (hchk : (g.arcs.filter (fun a => a.fromUri == uri && a.toUri == op.obj_uri &&
      a.type == relTitleOf g op.relation_uri)).isEmpty = false) :
    reconCreateStep uri (.ok (), g) op = (.ok (), g) := by
  simp only [reconCreateStep, hdir, if_true, hchk, Bool.false_eq_true, if_false]

theorem reconCreateStep_create2 (uri : String) (g : Graph) (op : DesiredRel)
    (hu : g.nodes.any (fun n => n.matchesUri uri) = true)
    (htgt : g.nodes.any (fun n => n.matchesUri op.obj_uri) = true)
    (hne : (relTitleOf g op.relation_uri == "") = false)
    (hdir : (op.direction == 1) = false)
    (hchk : (g.arcs.filter (fun a => a.fromUri == op.obj_uri && a.toUri == uri &&
      a.type == relTitleOf g op.relation_uri)).isEmpty = true) :
    reconCreateStep uri (.ok (), g) op =
      (.ok (), {g with
        arcs := g.arcs ++ [⟨g.nextId, relTitleOf g op.relation_uri, op.obj_uri, uri⟩],
        nextId := g.nextId + 1, arcCreations := g.arcCreations + 1}) := by
  simp only [reconCreateStep, hdir, Bool.false_eq_true, if_false, hchk, if_true,
    create_arc, hne, hu, htgt, Bool.and_self]

theorem reconCreateStep_skip2 (uri : String) (g : Graph) (op : DesiredRel)
    (hdir : (op.direction == 1) = false)
    (hchk : (g.arcs.filter (fun a => a.fromUri == op.obj_uri && a.toUri == uri &&
      a.type == relTitleOf g op.relation_uri)).isEmpty = false) :
    reconCreateStep uri (.ok (), g) op = (.ok (), g) := by
  simp only [reconCreateStep, hdir, hchk, Bool.false_eq_true, if_false]

theorem graph_shift (g : Graph) (arc0 : Arc) (ext : List Arc) :
    (⟨g.nodes, (g.arcs ++ [arc0]) ++ ext, (g.nextId + 1) + ext.length, g.uriSeed,
      (g.arcCreations + 1) + ext.length, g.arcDeletions⟩ : Graph) =
    ⟨g.nodes, g.arcs ++ (arc0 :: ext), g.nextId + (arc0 :: ext).length, g.uriSeed,
      g.arcCreations + (arc0 :: ext).length, g.arcDeletions⟩ := by
  rw [Graph.mk.injEq]
  refine ⟨rfl, ?_, ?_, rfl, ?_, rfl⟩
  · rw [List.append_assoc, List.singleton_append]
  · rw [List.length_cons]
    omega
  · rw [List.length_cons]
    omega

theorem reconCreFold_spec (uri : String) (ops : List DesiredRel) (g : Graph)
    (hu : g.nodes.any (fun n => n.matchesUri uri) = true)
    (htgt : ∀ op ∈ ops, g.nodes.any (fun n => n.matchesUri op.obj_uri) = true)
    (hne : ∀ op ∈ ops, (relTitleOf g op.relation_uri == "") = false) :
    ∃ ext : List Arc,
      reconCreFold uri g ops =
        (.ok (), ⟨g.nodes, g.arcs ++ ext, g.nextId + ext.length, g.uriSeed,
                  g.arcCreations + ext.length, g.arcDeletions⟩) ∧
      (∀ a ∈ ext, g.nextId ≤ a.id ∧
        ∃ op ∈ ops, desiredShape (relTitleOf g op.relation_uri) uri op a) ∧
      (∀ op ∈ ops, ∃ a ∈ g.arcs ++ ext,
        desiredShape (relTitleOf g op.relation_uri) uri op a) ∧
      (ext.map Arc.id).Nodup ∧
      (∀ a ∈ ext, a.id < g.nextId + ext.length) := by
  induction ops generalizing g with
  | nil =>
    refine ⟨[], ?_, by simp, by simp, by simp, by simp⟩
    show (Except.ok (), g) = _
    simp
  | cons op rest ih =>
    have hrtne := hne op (List.mem_cons_self op rest)
    by_cases hdir : (op.direction == 1) = true
    · by_cases hchk : (g.arcs.filter (fun a => a.fromUri == uri && a.toUri == op.obj_uri &&
        a.type == relTitleOf g op.relation_uri)).isEmpty = true
      · -- creates the forward edge, then recurses on the extended graph
        have hstep := reconCreateStep_create1 uri g op hu
          (htgt op (List.mem_cons_self op rest)) hrtne hdir hchk
        obtain ⟨ext, hfold, hext, hops2, hnd, hbound⟩ :=
          ih ({g with
                arcs := g.arcs ++ [⟨g.nextId, relTitleOf g op.relation_uri, uri, op.obj_uri⟩],
                nextId := g.nextId + 1, arcCreations := g.arcCreations + 1} : Graph)
            hu (fun op2 h2 => htgt op2 (List.mem_cons_of_mem op h2))
            (fun op2 h2 => hne op2 (List.mem_cons_of_mem op h2))
        refine ⟨⟨g.nextId, relTitleOf g op.relation_uri, uri, op.obj_uri⟩ :: ext,
          ?_, ?_, ?_, ?_, ?_⟩
        · show List.foldl (reconCreateStep uri) (reconCreateStep uri (.ok (), g) op) rest = _
          rw [hstep]
          show reconCreFold uri _ rest = _
          rw [hfold]
          show (Except.ok (), (⟨g.nodes,
            (g.arcs ++ [⟨g.nextId, relTitleOf g op.relation_uri, uri, op.obj_uri⟩]) ++ ext,
            (g.nextId + 1) + ext.length, g.uriSeed,
            (g.arcCreations + 1) + ext.length, g.arcDeletions⟩ : Graph)) = _
          rw [graph_shift]
        · intro a ha
          rcases List.mem_cons.mp ha with rfl | ha2
          · refine ⟨Nat.le_refl _, op, List.mem_cons_self op rest, rfl, ?_⟩
            rw [if_pos hdir]
            exact ⟨rfl, rfl⟩
          · obtain ⟨hid, op2, hop2, hshape⟩ := hext a ha2
            have hid2 : g.nextId + 1 ≤ a.id := hid
            exact ⟨by omega, op2, List.mem_cons_of_mem op hop2, hshape⟩
        · intro op2 hop2
          rcases List.mem_cons.mp hop2 with rfl | hop2b
          · refine ⟨⟨g.nextId, relTitleOf g op2.relation_uri, uri, op2.obj_uri⟩,
              List.mem_append_right _ (List.mem_cons_self _ _), rfl, ?_⟩
            rw [if_pos hdir]
            exact ⟨rfl, rfl⟩
          · obtain ⟨a, ha, hshape⟩ := hops2 op2 hop2b
            have ha2 : a ∈ (g.arcs ++
              [⟨g.nextId, relTitleOf g op.relation_uri, uri, op.obj_uri⟩]) ++ ext := ha
            rw [List.append_assoc, List.singleton_append] at ha2
            exact ⟨a, ha2, hshape⟩
        · rw [List.map_cons, List.nodup_cons]
          refine ⟨?_, hnd⟩
          intro hc
          rw [List.mem_map] at hc
          obtain ⟨a, ha, hid⟩ := hc
          have hid2 : g.nextId + 1 ≤ a.id := (hext a ha).1
          have hid3 : a.id = g.nextId := hid
          omega
        · intro a ha
          rw [List.length_cons]
          rcases List.mem_cons.mp ha with rfl | ha2
          · show g.nextId < g.nextId + (ext.length + 1)
            omega
          · have hb : a.id < (g.nextId + 1) + ext.length := hbound a ha2
            omega
      · -- the forward edge already exists: the step is the identity
        have hchkf : (g.arcs.filter (fun a => a.fromUri == uri && a.toUri == op.obj_uri &&
            a.type == relTitleOf g op.relation_uri)).isEmpty = false := by
          rcases hx : (g.arcs.filter (fun a => a.fromUri == uri && a.toUri == op.obj_uri &&
            a.type == relTitleOf g op.relation_uri)).isEmpty with _ | _
          · exact hx
          · exact absurd hx hchk
        have hstep := reconCreateStep_skip1 uri g op hdir hchkf
        obtain ⟨ext, hfold, hext, hops2, hnd, hbound⟩ := ih g hu
          (fun op2 h2 => htgt op2 (List.mem_cons_of_mem op h2))
          (fun op2 h2 => hne op2 (List.mem_cons_of_mem op h2))
        refine ⟨ext, ?_, ?_, ?_, hnd, hbound⟩
        · show List.foldl (reconCreateStep uri) (reconCreateStep uri (.ok (), g) op) rest = _
          rw [hstep]
          exact hfold
        · intro a ha
          obtain ⟨hid, op2, hop2, hshape⟩ := hext a ha
          exact ⟨hid, op2, List.mem_cons_of_mem op hop2, hshape⟩
        · intro op2 hop2
          rcases List.mem_cons.mp hop2 with rfl | hop2b
          · have hnonempty : (g.arcs.filter (fun a => a.fromUri == uri &&
                a.toUri == op2.obj_uri && a.type == relTitleOf g op2.relation_uri)) ≠ [] := by
              intro hc
              rw [List.isEmpty_iff.mpr hc] at hchkf
              cases hchkf
            obtain ⟨a, ha⟩ := List.exists_mem_of_ne_nil _ hnonempty
            have hmem := List.mem_of_mem_filter ha
            have hcond := List.of_mem_filter ha
            rw [Bool.and_eq_true, Bool.and_eq_true, beq_iff_eq, beq_iff_eq, beq_iff_eq]
              at hcond
            refine ⟨a, List.mem_append_left _ hmem, hcond.2, ?_⟩
            rw [if_pos hdir]
            exact ⟨hcond.1.1, hcond.1.2⟩
          · exact hops2 op2 hop2b
    · by_cases hchk : (g.arcs.filter (fun a => a.fromUri == op.obj_uri && a.toUri == uri &&
        a.type == relTitleOf g op.relation_uri)).isEmpty = true
      · have hstep := reconCreateStep_create2 uri g op hu
          (htgt op (List.mem_cons_self op rest)) hrtne (Bool.eq_false_iff.mpr hdir) hchk
        obtain ⟨ext, hfold, hext, hops2, hnd, hbound⟩ :=
          ih ({g with
                arcs := g.arcs ++ [⟨g.nextId, relTitleOf g op.relation_uri, op.obj_uri, uri⟩],
                nextId := g.nextId + 1, arcCreations := g.arcCreations + 1} : Graph)
            hu (fun op2 h2 => htgt op2 (List.mem_cons_of_mem op h2))
            (fun op2 h2 => hne op2 (List.mem_cons_of_mem op h2))
        refine ⟨⟨g.nextId, relTitleOf g op.relation_uri, op.obj_uri, uri⟩ :: ext,
          ?_, ?_, ?_, ?_, ?_⟩
        · show List.foldl (reconCreateStep uri) (reconCreateStep uri (.ok (), g) op) rest = _
          rw [hstep]
          show reconCreFold uri _ rest = _
          rw [hfold]
          show (Except.ok (), (⟨g.nodes,
            (g.arcs ++ [⟨g.nextId, relTitleOf g op.relation_uri, op.obj_uri, uri⟩]) ++ ext,
            (g.nextId + 1) + ext.length, g.uriSeed,
            (g.arcCreations + 1) + ext.length, g.arcDeletions⟩ : Graph)) = _
          rw [graph_shift]
        · intro a ha
          rcases List.mem_cons.mp ha with rfl | ha2
          · refine ⟨Nat.le_refl _, op, List.mem_cons_self op rest, rfl, ?_⟩
            rw [if_neg hdir]
            exact ⟨rfl, rfl⟩
          · obtain ⟨hid, op2, hop2, hshape⟩ := hext a ha2
            have hid2 : g.nextId + 1 ≤ a.id := hid
            exact ⟨by omega, op2, List.mem_cons_of_mem op hop2, hshape⟩
        · intro op2 hop2
          rcases List.mem_cons.mp hop2 with rfl | hop2b
          · refine ⟨⟨g.nextId, relTitleOf g op2.relation_uri, op2.obj_uri, uri⟩,
              List.mem_append_right _ (List.mem_cons_self _ _), rfl, ?_⟩
            rw [if_neg hdir]
            exact ⟨rfl, rfl⟩
          · obtain ⟨a, ha, hshape⟩ := hops2 op2 hop2b
            have ha2 : a ∈ (g.arcs ++
              [⟨g.nextId, relTitleOf g op.relation_uri, op.obj_uri, uri⟩]) ++ ext := ha
            rw [List.append_assoc, List.singleton_append] at ha2
            exact ⟨a, ha2, hshape⟩
        · rw [List.map_cons, List.nodup_cons]
          refine ⟨?_, hnd⟩
          intro hc
          rw [List.mem_map] at hc
          obtain ⟨a, ha, hid⟩ := hc
          have hid2 : g.nextId + 1 ≤ a.id := (hext a ha).1
          have hid3 : a.id = g.nextId := hid
          omega
        · intro a ha
          rw [List.length_cons]
          rcases List.mem_cons.mp ha with rfl | ha2
          · show g.nextId < g.nextId + (ext.length + 1)
            omega
          · have hb : a.id < (g.nextId + 1) + ext.length := hbound a ha2
            omega
      · have hchkf : (g.arcs.filter (fun a => a.fromUri == op.obj_uri && a.toUri == uri &&
            a.type == relTitleOf g op.relation_uri)).isEmpty = false := by
          rcases hx : (g.arcs.filter (fun a => a.fromUri == op.obj_uri && a.toUri == uri &&
            a.type == relTitleOf g op.relation_uri)).isEmpty with _ | _
          · exact hx
          · exact absurd hx hchk
        have hstep := reconCreateStep_skip2 uri g op (Bool.eq_false_iff.mpr hdir) hchkf
        obtain ⟨ext, hfold, hext, hops2, hnd, hbound⟩ := ih g hu
          (fun op2 h2 => htgt op2 (List.mem_cons_of_mem op h2))
          (fun op2 h2 => hne op2 (List.mem_cons_of_mem op h2))
        refine ⟨ext, ?_, ?_, ?_, hnd, hbound⟩
        · show List.foldl (reconCreateStep uri) (reconCreateStep uri (.ok (), g) op) rest = _
          rw [hstep]
          exact hfold
        · intro a ha
          obtain ⟨hid, op2, hop2, hshape⟩ := hext a ha
          exact ⟨hid, op2, List.mem_cons_of_mem op hop2, hshape⟩
        · intro op2 hop2
          rcases List.mem_cons.mp hop2 with rfl | hop2b
          · have hnonempty : (g.arcs.filter (fun a => a.fromUri == op2.obj_uri &&
                a.toUri == uri && a.type == relTitleOf g op2.relation_uri)) ≠ [] := by
              intro hc
              rw [List.isEmpty_iff.mpr hc] at hchkf
              cases hchkf
            obtain ⟨a, ha⟩ := List.exists_mem_of_ne_nil _ hnonempty
            have hmem := List.mem_of_mem_filter ha
            have hcond := List.of_mem_filter ha
            rw [Bool.and_eq_true, Bool.and_eq_true, beq_iff_eq, beq_iff_eq, beq_iff_eq]
              at hcond
            refine ⟨a, List.mem_append_left _ hmem, hcond.2, ?_⟩
            rw [if_neg hdir]
            exact ⟨hcond.1.1, hcond.1.2⟩
          · exact hops2 op2 hop2b

theorem filter_isEmpty_eq_false {α : Type} {l : List α} {p : α → Bool} :
    (l.filter p).isEmpty = false ↔ ∃ a ∈ l, p a = true := by
  rw [List.isEmpty_eq_false]
  constructor
  · intro h
    obtain ⟨a, ha⟩ := List.exists_mem_of_ne_nil _ h
    exact ⟨a, List.mem_of_mem_filter ha, List.of_mem_filter ha⟩
  · rintro ⟨a, ha, hp⟩ hc
    have : a ∈ l.filter p := List.mem_filter.mpr ⟨ha, hp⟩
    rw [hc] at this
    cases this

theorem reconCreFold_id (uri : String) {ops : List DesiredRel} (g : Graph)
    (h : ∀ op ∈ ops, ∃ a ∈ g.arcs, desiredShape (relTitleOf g op.relation_uri) uri op a) :
    reconCreFold uri g ops = (.ok (), g) := by
  induction ops with
  | nil => rfl
  | cons op rest ih =>
    obtain ⟨a, ha, hty, hrest⟩ := h op (List.mem_cons_self op rest)
    show List.foldl (reconCreateStep uri) (reconCreateStep uri (.ok (), g) op) rest = _
    by_cases hdir : (op.direction == 1) = true
    · rw [if_pos hdir] at hrest
      have hchkf : (g.arcs.filter (fun a2 => a2.fromUri == uri && a2.toUri == op.obj_uri &&
          a2.type == relTitleOf g op.relation_uri)).isEmpty = false := by
        rw [filter_isEmpty_eq_false]
        refine ⟨a, ha, ?_⟩
        rw [Bool.and_eq_true, Bool.and_eq_true, beq_iff_eq, beq_iff_eq, beq_iff_eq]
        exact ⟨⟨hrest.1, hrest.2⟩, hty⟩
      rw [reconCreateStep_skip1 uri g op hdir hchkf]
      exact ih (fun op2 h2 => h op2 (List.mem_cons_of_mem op h2))
    · rw [if_neg hdir] at hrest
      have hchkf : (g.arcs.filter (fun a2 => a2.fromUri == op.obj_uri && a2.toUri == uri &&
          a2.type == relTitleOf g op.relation_uri)).isEmpty = false := by
        rw [filter_isEmpty_eq_false]
        refine ⟨a, ha, ?_⟩
        rw [Bool.and_eq_true, Bool.and_eq_true, beq_iff_eq, beq_iff_eq, beq_iff_eq]
        exact ⟨⟨hrest.1, hrest.2⟩, hty⟩
      rw [reconCreateStep_skip2 uri g op (Bool.eq_false_iff.mpr hdir) hchkf]
      exact ih (fun op2 h2 => h op2 (List.mem_cons_of_mem op h2))

theorem find?_congr {α : Type} {p q : α → Bool} : ∀ {l : List α},
    (∀ a ∈ l, p a = q a) → l.find? p = l.find? q := by
  intro l
  induction l with
  | nil => intro _; rfl
  | cons x rest ih =>
    intro h
    have hx := h x (List.mem_cons_self x rest)
    by_cases hp : p x = true
    · rw [List.find?_cons_of_pos _ hp, List.find?_cons_of_pos _ (hx ▸ hp)]
    · rw [List.find?_cons_of_neg _ hp, List.find?_cons_of_neg _ (hx ▸ hp)]
      exact ih (fun a ha => h a (List.mem_cons_of_mem x ha))

theorem contains_iff_mem {l : List String} {x : String} : l.contains x = true ↔ x ∈ l :=
  ⟨fun hc => List.mem_of_elem_eq_true hc, fun hm => List.elem_eq_true_of_mem hm⟩

theorem contains_congr {l1 l2 : List String} (h : ∀ x, x ∈ l1 ↔ x ∈ l2) (x : String) :
    l1.contains x = l2.contains x := by
  rcases h1 : l1.contains x with _ | _ <;> rcases h2 : l2.contains x with _ | _
  · rfl
  · exfalso
    have := contains_iff_mem.mpr ((h x).mpr (contains_iff_mem.mp h2))
    rw [this] at h1
    cases h1
  · exfalso
    have := contains_iff_mem.mpr ((h x).mp (contains_iff_mem.mp h1))
    rw [this] at h2
    cases h2
  · rfl

theorem mem_currentRels {g : Graph} {uri : String} {r : CurRel} :
    r ∈ currentRels g uri ↔ ∃ a ∈ g.arcs,
      ((a.fromUri = uri ∧ ∃ t, g.nodes.find? (fun n => n.matchesUri a.toUri) = some t ∧
        t.label = "Object" ∧ r = ⟨a.type, a.toUri, a.id, 1⟩) ∨
       (¬ a.fromUri = uri ∧ a.toUri = uri ∧
        ∃ t, g.nodes.find? (fun n => n.matchesUri a.fromUri) = some t ∧
        t.label = "Object" ∧ r = ⟨a.type, a.fromUri, a.id, -1⟩)) := by
  rw [currentRels, List.mem_filterMap]
  constructor
  · rintro ⟨a, ha, hfa⟩
    refine ⟨a, ha, ?_⟩
    by_cases h1 : (a.fromUri == uri) = true
    · rw [if_pos h1] at hfa
      cases hfind : g.nodes.find? (fun t => t.matchesUri a.toUri) with
      | none => rw [hfind] at hfa; cases hfa
      | some t =>
        rw [hfind] at hfa
        have hfa2 : (if (t.label == "Object") = true then
            some (⟨a.type, a.toUri, a.id, 1⟩ : CurRel) else none) = some r := hfa
        by_cases hlab : (t.label == "Object") = true
        · rw [if_pos hlab] at hfa2
          exact Or.inl ⟨beq_iff_eq.mp h1, t, rfl, beq_iff_eq.mp hlab,
            (Option.some.inj hfa2).symm⟩
        · rw [if_neg hlab] at hfa2
          cases hfa2
    · rw [if_neg h1] at hfa
      by_cases h2 : (a.toUri == uri) = true
      · rw [if_pos h2] at hfa
        cases hfind : g.nodes.find? (fun t => t.matchesUri a.fromUri) with
        | none => rw [hfind] at hfa; cases hfa
        | some t =>
          rw [hfind] at hfa
          have hfa2 : (if (t.label == "Object") = true then
              some (⟨a.type, a.fromUri, a.id, -1⟩ : CurRel) else none) = some r := hfa
          by_cases hlab : (t.label == "Object") = true
          · rw [if_pos hlab] at hfa2
            refine Or.inr ⟨?_, beq_iff_eq.mp h2, t, rfl, beq_iff_eq.mp hlab,
              (Option.some.inj hfa2).symm⟩
            intro hc
            exact h1 (beq_iff_eq.mpr hc)
          · rw [if_neg hlab] at hfa2
            cases hfa2
      · rw [if_neg h2] at hfa
        cases hfa
  · rintro ⟨a, ha, hcase⟩
    refine ⟨a, ha, ?_⟩
    rcases hcase with ⟨hfrom, t, hfind, hlab, rfl⟩ | ⟨hfrom, hto, t, hfind, hlab, rfl⟩
    · rw [if_pos (beq_iff_eq.mpr hfrom), hfind]
      show (if (t.label == "Object") = true then
        some (⟨a.type, a.toUri, a.id, 1⟩ : CurRel) else none) = _
      rw [if_pos (beq_iff_eq.mpr hlab)]
    · rw [if_neg (fun hc => hfrom (beq_iff_eq.mp hc)), if_pos (beq_iff_eq.mpr hto), hfind]
      show (if (t.label == "Object") = true then
        some (⟨a.type, a.fromUri, a.id, -1⟩ : CurRel) else none) = _
      rw [if_pos (beq_iff_eq.mpr hlab)]

theorem reconDelFold_arcs_eq (sig : Signature) (newSet : List (String × String × Int))
    (rs : List CurRel) (g : Graph) :
    (reconDelFold sig newSet g rs).arcs =
      g.arcs.filter (fun a =>
        !(rs.any (fun r => delDecision sig newSet r && r.arcId == a.id))) := by
  induction rs generalizing g with
  | nil =>
    show g.arcs = _
    symm
    rw [List.filter_eq_self]
    intro a _
    simp
  | cons r rest ih =>
    show (reconDelFold sig newSet (reconDeleteStep sig newSet g r) rest).arcs = _
    rw [ih]
    rw [reconDeleteStep_eq]
    by_cases hc : delDecision sig newSet r = true
    · rw [if_pos hc]
      show ((g.arcs.filter (fun a => a.id != r.arcId)).filter _) = _
      rw [List.filter_filter]
      apply List.filter_congr
      intro a _
      rw [List.any_cons, Bool.not_or, hc, Bool.true_and]
      rcases hid : (r.arcId == a.id) with _ | _
      · have hid2 : (a.id != r.arcId) = true := by
          rw [bne_iff_ne]
          intro hcc
          rw [hcc] at hid
          rw [BEq.refl] at hid
          cases hid
        rw [hid2]
        simp
      · have hid2 : (a.id != r.arcId) = false := by
          rw [beq_iff_eq] at hid
          rw [hid]
          rw [bne_self_eq_false]
        rw [hid2]
        simp
    · rw [if_neg hc]
      apply List.filter_congr
      intro a _
      rw [List.any_cons]
      have hcf : delDecision sig newSet r = false := by
        rcases hx : delDecision sig newSet r with _ | _
        · rfl
        · exact absurd hx hc
      rw [hcf, Bool.false_and, Bool.false_or]

/-! ## Generic list congruence helpers -/

theorem flatMap_congr_mem {α β : Type} {l : List α} {f h : α → List β}
    (hfh : ∀ a ∈ l, f a = h a) : l.flatMap f = l.flatMap h := by
  induction l with
  | nil => rfl
  | cons x rest ih =>
    rw [List.flatMap_cons, List.flatMap_cons, hfh x (List.mem_cons_self x rest),
      ih (fun a ha => hfh a (List.mem_cons_of_mem x ha))]

theorem filterMap_congr_mem {α β : Type} {l : List α} {f h : α → Option β}
    (hfh : ∀ a ∈ l, f a = h a) : l.filterMap f = l.filterMap h := by
  induction l with
  | nil => rfl
  | cons x rest ih =>
    rw [List.filterMap_cons, List.filterMap_cons, hfh x (List.mem_cons_self x rest)]
    cases h x with
    | none => exact ih (fun a ha => hfh a (List.mem_cons_of_mem x ha))
    | some b => rw [ih (fun a ha => hfh a (List.mem_cons_of_mem x ha))]

theorem findSome?_congr_mem {α β : Type} {l : List α} {f h : α → Option β}
    (hfh : ∀ a ∈ l, f a = h a) : l.findSome? f = l.findSome? h := by
  induction l with
  | nil => rfl
  | cons x rest ih =>
    rw [List.findSome?_cons, List.findSome?_cons, hfh x (List.mem_cons_self x rest)]
    cases h x with
    | none => exact ih (fun a ha => hfh a (List.mem_cons_of_mem x ha))
    | some b => rfl

/-- In a list of object properties with pairwise distinct titles, searching
a member's title finds exactly that member. -/
theorem find?_title_self {l : List ObjParam} (hnd : (l.map ObjParam.title).Nodup)
    {q : ObjParam} (hq : q ∈ l) :
    l.find? (fun p => p.title == q.title) = some q := by
  induction l with
  | nil => cases hq
  | cons hd rest ih =>
    rw [List.map_cons, List.nodup_cons] at hnd
    rcases List.mem_cons.mp hq with rfl | hq2
    · exact List.find?_cons_of_pos _ (beq_self_eq_true _)
    · by_cases hm : (hd.title == q.title) = true
      · exfalso
        apply hnd.1
        rw [List.mem_map]
        exact ⟨q, hq2, (beq_iff_eq.mp hm).symm⟩
      · have hstep : (hd :: rest).find? (fun p => p.title == q.title) =
            rest.find? (fun p => p.title == q.title) := List.find?_cons_of_neg rest hm
        rw [hstep]
        exact ih hnd.2 hq2

/-! ## Frames and inversions of the node-level operations -/

theorem update_node_frame (g : Graph) (u : String) (params : List (String × Value)) :
    (update_node g u params).2.arcs = g.arcs ∧
    (update_node g u params).2.nextId = g.nextId ∧
    (update_node g u params).2.uriSeed = g.uriSeed ∧
    (update_node g u params).2.arcCreations = g.arcCreations ∧
    (update_node g u params).2.arcDeletions = g.arcDeletions := by
  simp only [update_node]
  by_cases h0 : params.isEmpty
  · rw [if_pos h0]
    exact ⟨rfl, rfl, rfl, rfl, rfl⟩
  · rw [if_neg h0]
    by_cases h1 : (params.filter (fun kv => kv.1 != "uri" && kv.1 != "label")).isEmpty
    · rw [if_pos h1]
      exact ⟨rfl, rfl, rfl, rfl, rfl⟩
    · rw [if_neg h1]
      cases g.nodes.find? (fun n => n.matchesUri u) with
      | none => exact ⟨rfl, rfl, rfl, rfl, rfl⟩
      | some n => exact ⟨rfl, rfl, rfl, rfl, rfl⟩

theorem update_node_ok (g : Graph) (u : String) (params : List (String × Value)) :
    ∃ v, (update_node g u params).1 = .ok v := by
  simp only [update_node]
  by_cases h0 : params.isEmpty
  · rw [if_pos h0]
    exact ⟨_, rfl⟩
  · rw [if_neg h0]
    by_cases h1 : (params.filter (fun kv => kv.1 != "uri" && kv.1 != "label")).isEmpty
    · rw [if_pos h1]
      exact ⟨_, rfl⟩
    · rw [if_neg h1]
      cases g.nodes.find? (fun n => n.matchesUri u) with
      | none => exact ⟨_, rfl⟩
      | some n => exact ⟨_, rfl⟩

theorem relTitleOf_nodes_congr {g g' : Graph} (h : g'.nodes = g.nodes) (ru : String) :
    relTitleOf g' ru = relTitleOf g ru := by
  rw [relTitleOf, relTitleOf, get_node_by_uri, get_node_by_uri, h]

theorem collect_signature_ok_inv {g : Graph} {cu : String} {sig : Signature}
    (h : collect_signature g cu = .ok sig) :
    (get_class g cu).isNone = false ∧
    sig = ⟨sigParams g (ancUris g cu), sigObjParams g (ancUris g cu)⟩ := by
  rw [collect_signature] at h
  by_cases hc : (get_class g cu).isNone = true
  · rw [if_pos hc] at h
    cases h
  · rw [if_neg hc] at h
    exact ⟨Bool.eq_false_iff.mpr hc, (Except.ok.inj h).symm⟩

theorem uriKey_strProp {n : Node} (h : n.uriKey.isSome = true) :
    n.uriKey = some (n.strProp "uri") := by
  cases hk : n.uriKey with
  | none =>
    rw [hk] at h
    cases h
  | some u =>
    rw [strProp_uri_of_uriVal (uriKey_eq_some_iff.mp hk)]

/-- Every object property of a resolved signature names an
`ObjectProperty` node whose stored title is the property's title, so the
relation type the mutators derive from its uri is exactly that title. -/
theorem relTitleOf_sig {g : Graph} {cu : String} {sig : Signature} (hwf : Wf g)
    (hsig : collect_signature g cu = .ok sig) {q : ObjParam} (hq : q ∈ sig.obj_params) :
    relTitleOf g q.uri = q.title ∧
    ∃ d ∈ g.nodes, d.uriKey = some q.uri ∧ d.label = "ObjectProperty" := by
  obtain ⟨-, hs⟩ := collect_signature_ok_inv hsig
  rw [hs] at hq
  have hq2 : q ∈ sigObjParams g (ancUris g cu) := hq
  obtain ⟨d, hd, hlab, hdom, r, hr, hrlab, hrarc, rfl⟩ := mem_sigObjParams.mp hq2
  have hkey := uriKey_strProp (hwf.1 d hd)
  refine ⟨?_, d, hd, hkey, hlab⟩
  show relTitleOf g (d.strProp "uri") = d.strProp "title"
  rw [relTitleOf, Wf.get_node_self hwf hd hkey]
  rfl

theorem get_object_some_inv {g : Graph} {u : String} {ob : TNode}
    (h : get_object g u = some ob) :
    ∃ n0, g.nodes.find? (fun n => n.matchesUri u) = some n0 ∧
      n0.label = "Object" ∧ ob = collect_node n0 := by
  rw [get_object, get_node_by_uri] at h
  cases hfind : g.nodes.find? (fun n => n.matchesUri u) with
  | none =>
    rw [hfind] at h
    cases h
  | some n0 =>
    rw [hfind] at h
    have h2 : (if ((collect_node n0).label == "Object") = true
        then some (collect_node n0) else none) = some ob := h
    by_cases hl : ((collect_node n0).label == "Object") = true
    · rw [if_pos hl] at h2
      exact ⟨n0, rfl, beq_iff_eq.mp hl, (Option.some.inj h2).symm⟩
    · rw [if_neg hl] at h2
      cases h2

/-! ## Congruence of the read operations under a label/uri-preserving
node map

After `update_node` the store's nodes are the image of a map `F` that
preserves every node's label and uri value and fixes every non-Object
node, and reconciliation leaves the schema arc types (SUBCLASSOF, DOMAIN,
RANGE, INSTANCEOF) untouched; every read the repository performs is shown
invariant under such a change. -/

theorem uriKey_congr {F : Node → Node} (hFuri : ∀ n, (F n).uriVal = n.uriVal) (n : Node) :
    (F n).uriKey = n.uriKey := by
  rw [Node.uriKey, Node.uriKey, hFuri]

theorem matchesUri_congr {F : Node → Node} (hFuri : ∀ n, (F n).uriVal = n.uriVal)
    (n : Node) (u : String) : (F n).matchesUri u = n.matchesUri u := by
  rw [Node.matchesUri, Node.matchesUri, hFuri]

theorem strProp_uri_congr {F : Node → Node} (hFuri : ∀ n, (F n).uriVal = n.uriVal)
    (n : Node) : (F n).strProp "uri" = n.strProp "uri" := by
  have h1 : getProp (F n).props "uri" = getProp n.props "uri" := hFuri n
  rw [Node.strProp, Node.strProp, h1]

theorem find?_nodes_map {g g' : Graph} {F : Node → Node}
    (hn : g'.nodes = g.nodes.map F) (hFuri : ∀ n, (F n).uriVal = n.uriVal) (u : String) :
    g'.nodes.find? (fun n => n.matchesUri u) =
      (g.nodes.find? (fun n => n.matchesUri u)).map F := by
  rw [hn, List.find?_map]
  have hpt : ∀ a ∈ g.nodes, ((fun n => n.matchesUri u) ∘ F) a =
      (fun n => n.matchesUri u) a := fun a _ => matchesUri_congr hFuri a u
  rw [find?_congr hpt]

theorem get_node_isNone_congr {g g' : Graph} {F : Node → Node}
    (hn : g'.nodes = g.nodes.map F) (hFuri : ∀ n, (F n).uriVal = n.uriVal) (u : String) :
    (get_node_by_uri g' u).isNone = (get_node_by_uri g u).isNone := by
  rw [get_node_by_uri, get_node_by_uri, find?_nodes_map hn hFuri]
  cases g.nodes.find? (fun n => n.matchesUri u) <;> rfl

theorem get_class_isNone_congr {g g' : Graph} {F : Node → Node}
    (hn : g'.nodes = g.nodes.map F) (hFuri : ∀ n, (F n).uriVal = n.uriVal)
    (hFlab : ∀ n, (F n).label = n.label) (u : String) :
    (get_class g' u).isNone = (get_class g u).isNone := by
  rw [get_class, get_class, get_node_by_uri, get_node_by_uri, find?_nodes_map hn hFuri]
  cases g.nodes.find? (fun n => n.matchesUri u) with
  | none => rfl
  | some n =>
    show (if ((collect_node (F n)).label == "Class") = true
        then some (collect_node (F n)) else none).isNone =
      (if ((collect_node n).label == "Class") = true
        then some (collect_node n) else none).isNone
    have hl : ((collect_node (F n)).label == "Class") = ((collect_node n).label == "Class") := by
      show ((F n).label == "Class") = (n.label == "Class")
      rw [hFlab]
    rw [hl]
    by_cases hc : ((collect_node n).label == "Class") = true
    · rw [if_pos hc, if_pos hc]
      rfl
    · rw [if_neg hc, if_neg hc]

theorem get_object_map_some {g g' : Graph} {F : Node → Node}
    (hn : g'.nodes = g.nodes.map F) (hFuri : ∀ n, (F n).uriVal = n.uriVal)
    (hFlab : ∀ n, (F n).label = n.label) {u : String} {n0 : Node}
    (hfind : g.nodes.find? (fun n => n.matchesUri u) = some n0)
    (hlab : n0.label = "Object") :
    get_object g' u = some (collect_node (F n0)) := by
  rw [get_object, get_node_by_uri, find?_nodes_map hn hFuri, hfind]
  have hc : ((collect_node (F n0)).label == "Object") = true := by
    show ((F n0).label == "Object") = true
    rw [hFlab]
    exact beq_iff_eq.mpr hlab
  show (if ((collect_node (F n0)).label == "Object") = true
      then some (collect_node (F n0)) else none) = _
  rw [if_pos hc]

theorem hasArc_congr {g g' : Graph} {ty : String}
    (harc : g'.arcs.filter (fun a => a.type == ty) = g.arcs.filter (fun a => a.type == ty))
    (f t : String) : hasArc g' ty f t = hasArc g ty f t := by
  apply Bool.eq_iff_iff.mpr
  rw [hasArc_iff, hasArc_iff]
  constructor
  · rintro ⟨a, ha, h1, h2, h3⟩
    have hm : a ∈ g'.arcs.filter (fun a => a.type == ty) :=
      List.mem_filter.mpr ⟨ha, beq_iff_eq.mpr h1⟩
    rw [harc] at hm
    exact ⟨a, List.mem_of_mem_filter hm, h1, h2, h3⟩
  · rintro ⟨a, ha, h1, h2, h3⟩
    have hm : a ∈ g.arcs.filter (fun a => a.type == ty) :=
      List.mem_filter.mpr ⟨ha, beq_iff_eq.mpr h1⟩
    rw [← harc] at hm
    exact ⟨a, List.mem_of_mem_filter hm, h1, h2, h3⟩

theorem subArcRel_congr {g g' : Graph}
    (harc : g'.arcs.filter (fun a => a.type == "SUBCLASSOF") =
      g.arcs.filter (fun a => a.type == "SUBCLASSOF")) (x y : String) :
    subArcRel g' x y ↔ subArcRel g x y := by
  constructor
  · rintro ⟨r, hr, h1, h2, h3⟩
    have hm : r ∈ g'.arcs.filter (fun a => a.type == "SUBCLASSOF") :=
      List.mem_filter.mpr ⟨hr, beq_iff_eq.mpr h1⟩
    rw [harc] at hm
    exact ⟨r, List.mem_of_mem_filter hm, h1, h2, h3⟩
  · rintro ⟨r, hr, h1, h2, h3⟩
    have hm : r ∈ g.arcs.filter (fun a => a.type == "SUBCLASSOF") :=
      List.mem_filter.mpr ⟨hr, beq_iff_eq.mpr h1⟩
    rw [← harc] at hm
    exact ⟨r, List.mem_of_mem_filter hm, h1, h2, h3⟩

theorem ancUris_mem_congr {g g' : Graph}
    (harc : g'.arcs.filter (fun a => a.type == "SUBCLASSOF") =
      g.arcs.filter (fun a => a.type == "SUBCLASSOF")) (u : String) :
    ∀ x, x ∈ ancUris g' u ↔ x ∈ ancUris g u := by
  intro x
  rw [mem_ancUris, mem_ancUris]
  constructor
  · exact Relation.ReflTransGen.mono (fun a b hab => (subArcRel_congr harc a b).mp hab)
  · exact Relation.ReflTransGen.mono (fun a b hab => (subArcRel_congr harc a b).mpr hab)

theorem domainHits_congr {g g' : Graph} {F : Node → Node}
    (hn : g'.nodes = g.nodes.map F) (hFuri : ∀ n, (F n).uriVal = n.uriVal)
    (hFlab : ∀ n, (F n).label = n.label)
    (harcD : g'.arcs.filter (fun a => a.type == "DOMAIN") =
      g.arcs.filter (fun a => a.type == "DOMAIN"))
    {anc' anc : List String} (hanc : ∀ x, x ∈ anc' ↔ x ∈ anc)
    {d' d : Node} (hkey : d'.uriKey = d.uriKey) :
    domainHits g' anc' d' = domainHits g anc d := by
  apply Bool.eq_iff_iff.mpr
  rw [domainHits_iff, domainHits_iff]
  constructor
  · rintro ⟨s, hs, hslab, su, du, hsu, hdu, hmem, harc⟩
    rw [hn, List.mem_map] at hs
    obtain ⟨s0, hs0, rfl⟩ := hs
    refine ⟨s0, hs0, ?_, su, du, ?_, ?_, (hanc su).mp hmem, ?_⟩
    · rw [← hFlab s0]
      exact hslab
    · rw [← uriKey_congr hFuri s0]
      exact hsu
    · rw [← hkey]
      exact hdu
    · rw [← hasArc_congr harcD du su]
      exact harc
  · rintro ⟨s, hs, hslab, su, du, hsu, hdu, hmem, harc⟩
    refine ⟨F s, by rw [hn]; exact List.mem_map.mpr ⟨s, hs, rfl⟩,
      ?_, su, du, ?_, ?_, (hanc su).mpr hmem, ?_⟩
    · rw [hFlab]
      exact hslab
    · rw [uriKey_congr hFuri]
      exact hsu
    · rw [hkey]
      exact hdu
    · rw [hasArc_congr harcD du su]
      exact harc

theorem rangeArc_congr {g g' : Graph}
    (harcR : g'.arcs.filter (fun a => a.type == "RANGE") =
      g.arcs.filter (fun a => a.type == "RANGE"))
    {d' d r' r : Node} (hkd : d'.uriKey = d.uriKey) (hkr : r'.uriKey = r.uriKey) :
    rangeArc g' d' r' = rangeArc g d r := by
  apply Bool.eq_iff_iff.mpr
  rw [rangeArc_iff, rangeArc_iff]
  constructor
  · rintro ⟨du, ru, hdu, hru, h3⟩
    refine ⟨du, ru, ?_, ?_, ?_⟩
    · rw [← hkd]
      exact hdu
    · rw [← hkr]
      exact hru
    · rw [← hasArc_congr harcR du ru]
      exact h3
  · rintro ⟨du, ru, hdu, hru, h3⟩
    refine ⟨du, ru, ?_, ?_, ?_⟩
    · rw [hkd]
      exact hdu
    · rw [hkr]
      exact hru
    · rw [hasArc_congr harcR du ru]
      exact h3

theorem sigParams_congr {g g' : Graph} {F : Node → Node}
    (hn : g'.nodes = g.nodes.map F) (hFuri : ∀ n, (F n).uriVal = n.uriVal)
    (hFlab : ∀ n, (F n).label = n.label)
    (hfix : ∀ n ∈ g.nodes, ¬ n.label = "Object" → F n = n)
    (harcD : g'.arcs.filter (fun a => a.type == "DOMAIN") =
      g.arcs.filter (fun a => a.type == "DOMAIN"))
    {anc' anc : List String} (hanc : ∀ x, x ∈ anc' ↔ x ∈ anc) :
    sigParams g' anc' = sigParams g anc := by
  rw [sigParams, sigParams, hn, List.filter_map]
  have hpt : ∀ n2 ∈ g.nodes,
      ((fun d => d.label == "DatatypeProperty" && domainHits g' anc' d) ∘ F) n2 =
      (fun d => d.label == "DatatypeProperty" && domainHits g anc d) n2 := by
    intro n2 _
    show ((F n2).label == "DatatypeProperty" && domainHits g' anc' (F n2)) = _
    rw [hFlab, domainHits_congr hn hFuri hFlab harcD hanc (uriKey_congr hFuri n2)]
  rw [List.filter_congr hpt, List.map_map]
  apply List.map_congr_left
  intro d hd
  have hdm := List.mem_of_mem_filter hd
  have hdc := List.of_mem_filter hd
  rw [Bool.and_eq_true, beq_iff_eq] at hdc
  show (fun d => (⟨d.strProp "title", d.strProp "uri"⟩ : Param)) (F d) = _
  rw [hfix d hdm (by rw [hdc.1]; decide)]

theorem sigObjParams_congr {g g' : Graph} {F : Node → Node}
    (hn : g'.nodes = g.nodes.map F) (hFuri : ∀ n, (F n).uriVal = n.uriVal)
    (hFlab : ∀ n, (F n).label = n.label)
    (hfix : ∀ n ∈ g.nodes, ¬ n.label = "Object" → F n = n)
    (harcD : g'.arcs.filter (fun a => a.type == "DOMAIN") =
      g.arcs.filter (fun a => a.type == "DOMAIN"))
    (harcR : g'.arcs.filter (fun a => a.type == "RANGE") =
      g.arcs.filter (fun a => a.type == "RANGE"))
    {anc' anc : List String} (hanc : ∀ x, x ∈ anc' ↔ x ∈ anc) :
    sigObjParams g' anc' = sigObjParams g anc := by
  rw [sigObjParams, sigObjParams, hn, List.flatMap_map]
  apply flatMap_congr_mem
  intro d hd
  show (if ((F d).label == "ObjectProperty" && domainHits g' anc' (F d)) = true then
      ((g.nodes.map F).filter (fun r => r.label == "Class" && rangeArc g' (F d) r)).map
        (fun r => (⟨(F d).strProp "title", (F d).strProp "uri", r.strProp "uri", 1⟩ : ObjParam))
    else []) =
    (if (d.label == "ObjectProperty" && domainHits g anc d) = true then
      (g.nodes.filter (fun r => r.label == "Class" && rangeArc g d r)).map
        (fun r => (⟨d.strProp "title", d.strProp "uri", r.strProp "uri", 1⟩ : ObjParam))
    else [])
  have hcond : ((F d).label == "ObjectProperty" && domainHits g' anc' (F d)) =
      (d.label == "ObjectProperty" && domainHits g anc d) := by
    rw [hFlab, domainHits_congr hn hFuri hFlab harcD hanc (uriKey_congr hFuri d)]
  rw [hcond]
  by_cases hc : (d.label == "ObjectProperty" && domainHits g anc d) = true
  · rw [if_pos hc, if_pos hc]
    rw [Bool.and_eq_true, beq_iff_eq] at hc
    have hfd : F d = d := hfix d hd (by rw [hc.1]; decide)
    rw [hfd, List.filter_map]
    have hpt : ∀ r2 ∈ g.nodes,
        ((fun r => r.label == "Class" && rangeArc g' d r) ∘ F) r2 =
        (fun r => r.label == "Class" && rangeArc g d r) r2 := by
      intro r2 _
      show ((F r2).label == "Class" && rangeArc g' d (F r2)) = _
      rw [hFlab, rangeArc_congr harcR rfl (uriKey_congr hFuri r2)]
    rw [List.filter_congr hpt, List.map_map]
    apply List.map_congr_left
    intro r hr
    have hrm := List.mem_of_mem_filter hr
    have hrc := List.of_mem_filter hr
    rw [Bool.and_eq_true, beq_iff_eq] at hrc
    show (fun r => (⟨d.strProp "title", d.strProp "uri", r.strProp "uri", 1⟩ : ObjParam)) (F r) = _
    rw [hfix r hrm (by rw [hrc.1]; decide)]
  · rw [if_neg hc, if_neg hc]

theorem collect_signature_congr {g g' : Graph} {F : Node → Node}
    (hn : g'.nodes = g.nodes.map F) (hFuri : ∀ n, (F n).uriVal = n.uriVal)
    (hFlab : ∀ n, (F n).label = n.label)
    (hfix : ∀ n ∈ g.nodes, ¬ n.label = "Object" → F n = n)
    (harcS : g'.arcs.filter (fun a => a.type == "SUBCLASSOF") =
      g.arcs.filter (fun a => a.type == "SUBCLASSOF"))
    (harcD : g'.arcs.filter (fun a => a.type == "DOMAIN") =
      g.arcs.filter (fun a => a.type == "DOMAIN"))
    (harcR : g'.arcs.filter (fun a => a.type == "RANGE") =
      g.arcs.filter (fun a => a.type == "RANGE"))
    (cu : String) :
    collect_signature g' cu = collect_signature g cu := by
  rw [collect_signature, collect_signature, get_class_isNone_congr hn hFuri hFlab cu]
  by_cases hc : (get_class g cu).isNone = true
  · rw [if_pos hc, if_pos hc]
  · rw [if_neg hc, if_neg hc]
    rw [sigParams_congr hn hFuri hFlab hfix harcD (ancUris_mem_congr harcS cu),
      sigObjParams_congr hn hFuri hFlab hfix harcD harcR (ancUris_mem_congr harcS cu)]

theorem objectClassRows_congr {g g' : Graph} {F : Node → Node}
    (hn : g'.nodes = g.nodes.map F) (hFuri : ∀ n, (F n).uriVal = n.uriVal)
    (harcI : g'.arcs.filter (fun a => a.type == "INSTANCEOF") =
      g.arcs.filter (fun a => a.type == "INSTANCEOF"))
    (u : String) : objectClassRows g' u = objectClassRows g u := by
  rw [objectClassRows, objectClassRows]
  have h1 : ∀ (l : List Arc),
      l.filter (fun a => a.type == "INSTANCEOF" && a.fromUri == u) =
      (l.filter (fun a => a.type == "INSTANCEOF")).filter (fun a => a.fromUri == u) := by
    intro l
    rw [List.filter_filter]
    apply List.filter_congr
    intro a _
    rw [Bool.and_comm]
  rw [h1, h1, harcI]
  apply filterMap_congr_mem
  intro a _
  show (g'.nodes.find? (fun c => c.matchesUri a.toUri)).map (fun c => c.strProp "uri") = _
  rw [find?_nodes_map hn hFuri]
  cases g.nodes.find? (fun c => c.matchesUri a.toUri) with
  | none => rfl
  | some c =>
    show some ((F c).strProp "uri") = some (c.strProp "uri")
    rw [strProp_uri_congr hFuri]

theorem opError_congr {g g' : Graph} {F : Node → Node}
    (hn : g'.nodes = g.nodes.map F) (hFuri : ∀ n, (F n).uriVal = n.uriVal)
    (uris : List String) (op : DesiredRel) :
    opError g' uris op = opError g uris op := by
  rw [opError, opError, get_node_isNone_congr hn hFuri op.obj_uri]

theorem relTitleOf_map_congr {g g' : Graph} {F : Node → Node}
    (hn : g'.nodes = g.nodes.map F) (hFuri : ∀ n, (F n).uriVal = n.uriVal)
    {u : String} {d : Node}
    (hfind : g.nodes.find? (fun n => n.matchesUri u) = some d) (hfd : F d = d) :
    relTitleOf g' u = relTitleOf g u := by
  rw [relTitleOf, relTitleOf, get_node_by_uri, get_node_by_uri,
    find?_nodes_map hn hFuri, hfind]
  show (collect_node (F d)).title = (collect_node d).title
  rw [hfd]

/-! ## Shape of the reconciler's writes -/

theorem reconCreFold_error (uri : String) (ops : List DesiredRel) (e : Err) (h : Graph) :
    ops.foldl (reconCreateStep uri) (.error e, h) = (.error e, h) := by
  induction ops with
  | nil => rfl
  | cons op rest ih =>
    show rest.foldl (reconCreateStep uri) (reconCreateStep uri (.error e, h) op) = _
    rw [show reconCreateStep uri (.error e, h) op = (.error e, h) from rfl]
    exact ih

/-- One creation step either leaves the graph alone, fails leaving the
graph alone, or appends exactly one arc between the object and the
desired target, typed with the resolved relation title (`RELATED` when
that title is empty). -/
theorem reconCreateStep_cases (uri : String) (g : Graph) (op : DesiredRel) :
    reconCreateStep uri (.ok (), g) op = (.ok (), g) ∨
    (∃ e, reconCreateStep uri (.ok (), g) op = (.error e, g)) ∨
    (∃ arc : Arc,
      reconCreateStep uri (.ok (), g) op =
        (.ok (), {g with arcs := g.arcs ++ [arc], nextId := g.nextId + 1,
                         arcCreations := g.arcCreations + 1}) ∧
      (arc.type = relTitleOf g op.relation_uri ∨ arc.type = "RELATED") ∧
      ((arc.fromUri = uri ∧ arc.toUri = op.obj_uri) ∨
       (arc.fromUri = op.obj_uri ∧ arc.toUri = uri))) := by
  have hty : ∀ rt : String,
      ((if (rt == "") = true then "RELATED" else rt) = rt ∨
       (if (rt == "") = true then "RELATED" else rt) = "RELATED") := by
    intro rt
    by_cases hrt : (rt == "") = true
    · rw [if_pos hrt]
      exact Or.inr rfl
    · rw [if_neg hrt]
      exact Or.inl rfl
  by_cases hdir : (op.direction == 1) = true
  · by_cases hchk : (g.arcs.filter (fun a => a.fromUri == uri && a.toUri == op.obj_uri &&
        a.type == relTitleOf g op.relation_uri)).isEmpty = true
    · by_cases hex : ((g.nodes.any (fun n => n.matchesUri uri)) &&
          (g.nodes.any (fun n => n.matchesUri op.obj_uri))) = true
      · refine Or.inr (Or.inr ⟨⟨g.nextId,
          (if (relTitleOf g op.relation_uri == "") = true then "RELATED"
           else relTitleOf g op.relation_uri), uri, op.obj_uri⟩,
          ?_, hty (relTitleOf g op.relation_uri), Or.inl ⟨rfl, rfl⟩⟩)
        simp only [reconCreateStep, hdir, if_true, hchk, create_arc, hex]
      · refine Or.inr (Or.inl ⟨.runtime "Failed to create arc", ?_⟩)
        simp only [reconCreateStep, hdir, if_true, hchk, create_arc, hex,
          Bool.false_eq_true, if_false]
    · refine Or.inl ?_
      simp only [reconCreateStep, hdir, if_true, Bool.false_eq_true, if_false,
        (Bool.eq_false_iff.mpr hchk)]
  · by_cases hchk : (g.arcs.filter (fun a => a.fromUri == op.obj_uri && a.toUri == uri &&
        a.type == relTitleOf g op.relation_uri)).isEmpty = true
    · by_cases hex : ((g.nodes.any (fun n => n.matchesUri op.obj_uri)) &&
          (g.nodes.any (fun n => n.matchesUri uri))) = true
      · refine Or.inr (Or.inr ⟨⟨g.nextId,
          (if (relTitleOf g op.relation_uri == "") = true then "RELATED"
           else relTitleOf g op.relation_uri), op.obj_uri, uri⟩,
          ?_, hty (relTitleOf g op.relation_uri), Or.inr ⟨rfl, rfl⟩⟩)
        simp only [reconCreateStep, (Bool.eq_false_iff.mpr hdir), Bool.false_eq_true,
          if_false, hchk, if_true, create_arc, hex]
      · refine Or.inr (Or.inl ⟨.runtime "Failed to create arc", ?_⟩)
        simp only [reconCreateStep, (Bool.eq_false_iff.mpr hdir), Bool.false_eq_true,
          if_false, hchk, if_true, create_arc, hex]
    · refine Or.inl ?_
      simp only [reconCreateStep, (Bool.eq_false_iff.mpr hdir), Bool.false_eq_true,
        if_false, (Bool.eq_false_iff.mpr hchk)]

/-- The creation pass only appends arcs, does not touch nodes, and every
appended arc joins the object and a desired target with the resolved
relation type, on the error path included. -/
theorem reconCreFold_arcs_shape (uri : String) (ops : List DesiredRel) : ∀ (g : Graph),
    ∃ ext : List Arc,
      (reconCreFold uri g ops).2.arcs = g.arcs ++ ext ∧
      (reconCreFold uri g ops).2.nodes = g.nodes ∧
      ∀ a ∈ ext, ∃ op ∈ ops,
        (a.type = relTitleOf g op.relation_uri ∨ a.type = "RELATED") ∧
        ((a.fromUri = uri ∧ a.toUri = op.obj_uri) ∨
         (a.fromUri = op.obj_uri ∧ a.toUri = uri)) := by
  induction ops with
  | nil =>
    intro g
    refine ⟨[], ?_, rfl, by intro a ha; cases ha⟩
    show g.arcs = g.arcs ++ []
    rw [List.append_nil]
  | cons op rest ih =>
    intro g
    show ∃ ext,
      (rest.foldl (reconCreateStep uri) (reconCreateStep uri (.ok (), g) op)).2.arcs =
        g.arcs ++ ext ∧
      (rest.foldl (reconCreateStep uri) (reconCreateStep uri (.ok (), g) op)).2.nodes =
        g.nodes ∧
      ∀ a ∈ ext, ∃ op2 ∈ op :: rest,
        (a.type = relTitleOf g op2.relation_uri ∨ a.type = "RELATED") ∧
        ((a.fromUri = uri ∧ a.toUri = op2.obj_uri) ∨
         (a.fromUri = op2.obj_uri ∧ a.toUri = uri))
    rcases reconCreateStep_cases uri g op with hstep | ⟨e, hstep⟩ | ⟨arc, hstep, hty, hshape⟩
    · rw [hstep]
      obtain ⟨ext, h1, h2, h3⟩ := ih g
      refine ⟨ext, h1, h2, ?_⟩
      intro a ha
      obtain ⟨op2, hop2, hr⟩ := h3 a ha
      exact ⟨op2, List.mem_cons_of_mem op hop2, hr⟩
    · rw [hstep, reconCreFold_error]
      refine ⟨[], ?_, rfl, by intro a ha; cases ha⟩
      show g.arcs = g.arcs ++ []
      rw [List.append_nil]
    · rw [hstep]
      obtain ⟨ext, h1, h2, h3⟩ := ih (⟨g.nodes, g.arcs ++ [arc], g.nextId + 1, g.uriSeed,
        g.arcCreations + 1, g.arcDeletions⟩ : Graph)
      refine ⟨arc :: ext, ?_, ?_, ?_⟩
      · show (reconCreFold uri (⟨g.nodes, g.arcs ++ [arc], g.nextId + 1, g.uriSeed,
          g.arcCreations + 1, g.arcDeletions⟩ : Graph) rest).2.arcs = _
        rw [h1]
        show (g.arcs ++ [arc]) ++ ext = _
        rw [List.append_assoc, List.singleton_append]
      · show (reconCreFold uri (⟨g.nodes, g.arcs ++ [arc], g.nextId + 1, g.uriSeed,
          g.arcCreations + 1, g.arcDeletions⟩ : Graph) rest).2.nodes = g.nodes
        exact h2
      · intro a ha
        rcases List.mem_cons.mp ha with rfl | ha2
        · exact ⟨op, List.mem_cons_self op rest, hty, hshape⟩
        · obtain ⟨op2, hop2, hty2, hsh2⟩ := h3 a ha2
          refine ⟨op2, List.mem_cons_of_mem op hop2, ?_, hsh2⟩
          rcases hty2 with hty2 | hty2
          · left
            rw [hty2]
            exact relTitleOf_nodes_congr rfl op2.relation_uri
          · right
            exact hty2

/-! ## What the reconciler's deletion pass may delete -/

/-- A current-relationship row that the deletion pass decides to delete,
with the arc it targets: the arc's type is the title of some object
property of the signature, the arc touches the object, and its other
endpoint is an Object-labeled node. -/
theorem delRow_title {g : Graph} (hwf : Wf g) {uri : String} {sig : Signature}
    {newSet : List (String × String × Int)} {a : Arc} (ha : a ∈ g.arcs)
    {r : CurRel} (hr : r ∈ currentRels g uri) (hdel : delDecision sig newSet r = true)
    (hid : r.arcId = a.id) :
    ∃ p ∈ sig.obj_params, a.type = p.title ∧ (a.fromUri = uri ∨ a.toUri = uri) ∧
      ∃ n ∈ g.nodes, n.label = "Object" ∧
        n.uriKey = some (if a.fromUri = uri then a.toUri else a.fromUri) := by
  obtain ⟨a', ha', hcase⟩ := mem_currentRels.mp hr
  cases hfind : sig.obj_params.find? (fun p => p.title == r.relType) with
  | none =>
    rw [delDecision, hfind] at hdel
    cases hdel
  | some p =>
    have hpmem := List.mem_of_find?_eq_some hfind
    have hptitle0 := List.find?_some hfind
    have hptitle : (p.title == r.relType) = true := hptitle0
    rcases hcase with ⟨hfrom, t, htfind, htlab, hreq⟩ | ⟨hfrom, hto, t, htfind, htlab, hreq⟩
    · subst hreq
      have hid2 : a'.id = a.id := hid
      have haa : a' = a := List.inj_on_of_nodup_map hwf.2.2.1 ha' ha hid2
      subst haa
      refine ⟨p, hpmem, (beq_iff_eq.mp hptitle).symm, Or.inl hfrom, t,
        List.mem_of_find?_eq_some htfind, htlab, ?_⟩
      rw [if_pos hfrom]
      have hmt0 := List.find?_some htfind
      have hmt : t.matchesUri a'.toUri = true := hmt0
      exact uriKey_eq_some_iff.mpr (matchesUri_iff.mp hmt)
    · subst hreq
      have hid2 : a'.id = a.id := hid
      have haa : a' = a := List.inj_on_of_nodup_map hwf.2.2.1 ha' ha hid2
      subst haa
      refine ⟨p, hpmem, (beq_iff_eq.mp hptitle).symm, Or.inr hto, t,
        List.mem_of_find?_eq_some htfind, htlab, ?_⟩
      rw [if_neg hfrom]
      have hmt0 := List.find?_some htfind
      have hmt : t.matchesUri a'.fromUri = true := hmt0
      exact uriKey_eq_some_iff.mpr (matchesUri_iff.mp hmt)

/-- Anything the deletion pass removes is an object-property edge of the
object: typed by a signature title, incident to the object, with an
Object-labeled node at the other end. -/
theorem delFold_deleted_arc {g : Graph} (hwf : Wf g) {uri : String} {sig : Signature}
    {newSet : List (String × String × Int)} {a : Arc} (ha : a ∈ g.arcs)
    (hnot : a ∉ (reconDelFold sig newSet g (currentRels g uri)).arcs) :
    ∃ p ∈ sig.obj_params, a.type = p.title ∧ (a.fromUri = uri ∨ a.toUri = uri) ∧
      ∃ n ∈ g.nodes, n.label = "Object" ∧
        n.uriKey = some (if a.fromUri = uri then a.toUri else a.fromUri) := by
  have hex : ∃ r ∈ currentRels g uri, delDecision sig newSet r = true ∧ r.arcId = a.id := by
    by_contra hc
    push_neg at hc
    exact hnot ((reconDelFold_arcs_mem sig newSet (currentRels g uri) g).mpr
      ⟨ha, fun r hr hd => hc r hr hd⟩)
  obtain ⟨r, hr, hdel, hid⟩ := hex
  exact delRow_title hwf ha hr hdel hid

/-! ## Arc decomposition of a full `update_object` run -/

theorem update_object_arcs_decomp (g : Graph) (uri : String) (t d : Option String)
    (props : List (String × Value)) (ops : List DesiredRel) (cu : String) (sig : Signature)
    (ob : TNode)
    (hobj : get_object g uri = some ob)
    (hrow : (objectClassRows g uri).head? = some cu)
    (hcune : (cu == "") = false)
    (hsig : collect_signature g cu = .ok sig)
    (hprops : props.find?
      (fun kv => !((sig.params.map (fun p => p.uri)).contains kv.1)) = none)
    (hops : ops.findSome? (opError g (sig.obj_params.map (fun p => p.uri))) = none) :
    ∃ ext : List Arc,
      (update_object g uri t d props (some ops)).2.arcs =
        (reconDelFold sig (opKeys ops) g (currentRels g uri)).arcs ++ ext ∧
      ∀ a ∈ ext, ∃ op ∈ ops,
        (a.type = relTitleOf g op.relation_uri ∨ a.type = "RELATED") ∧
        ((a.fromUri = uri ∧ a.toUri = op.obj_uri) ∨
         (a.fromUri = op.obj_uri ∧ a.toUri = uri)) := by
  rw [update_object_run g uri t d props ops cu sig ob hobj hrow hcune hsig hprops hops]
  obtain ⟨ext, h1, h2, h3⟩ := reconCreFold_arcs_shape uri ops
    (reconDelFold sig (opKeys ops) g (currentRels g uri))
  have hnodes : (reconDelFold sig (opKeys ops) g (currentRels g uri)).nodes = g.nodes :=
    (reconDelFold_frame sig (opKeys ops) (currentRels g uri) g).1
  refine ⟨ext, ?_, ?_⟩
  · rcases hR : reconCreFold uri (reconDelFold sig (opKeys ops) g (currentRels g uri)) ops
      with ⟨st, h⟩
    rw [hR] at h1
    cases st with
    | error e =>
      show h.arcs = _
      exact h1
    | ok v =>
      show (update_node h uri (mergeProps (baseParams t d) props)).2.arcs = _
      rw [(update_node_frame h uri (mergeProps (baseParams t d) props)).1]
      exact h1
  · intro a ha
    obtain ⟨op, hop, hty, hsh⟩ := h3 a ha
    refine ⟨op, hop, ?_, hsh⟩
    rcases hty with hty | hty
    · left
      rw [hty, relTitleOf_nodes_congr hnodes]
    · right
      exact hty

/-- Each desired relationship of a validated list names some object
property of the signature. -/
theorem opsValidated_mem {g : Graph} {sig : Signature} {ops : List DesiredRel}
    (hops : ops.findSome? (opError g (sig.obj_params.map (fun p => p.uri))) = none)
    {op : DesiredRel} (hop : op ∈ ops) :
    (∃ q ∈ sig.obj_params, q.uri = op.relation_uri) ∧
    (get_node_by_uri g op.obj_uri).isNone = false := by
  have hoe := List.findSome?_eq_none_iff.mp hops op hop
  rw [opError] at hoe
  by_cases hcont : ((sig.obj_params.map (fun p => p.uri)).contains op.relation_uri) = true
  · rw [if_neg (by rw [hcont]; decide)] at hoe
    by_cases hnone : (get_node_by_uri g op.obj_uri).isNone = true
    · rw [if_pos hnone] at hoe
      cases hoe
    · obtain ⟨q, hq, hquri⟩ := List.mem_map.mp (contains_iff_mem.mp hcont)
      exact ⟨⟨q, hq, hquri⟩, Bool.eq_false_iff.mpr hnone⟩
  · exfalso
    rw [if_pos (by rw [Bool.eq_false_iff.mpr hcont]; rfl :
      (!((sig.obj_params.map (fun p => p.uri)).contains op.relation_uri)) = true)] at hoe
    cases hoe

/-- A full `update_object` run never changes the set of schema-typed
arcs: for each reserved type the arc list filtered to that type is
exactly what it was, provided no object property of the signature is
titled with a reserved type name. -/
theorem update_object_reserved_filter (g : Graph) (uri : String) (t d : Option String)
    (props : List (String × Value)) (ops : List DesiredRel) (cu : String) (sig : Signature)
    (ob : TNode) (hwf : Wf g)
    (hobj : get_object g uri = some ob)
    (hrow : (objectClassRows g uri).head? = some cu)
    (hcune : (cu == "") = false)
    (hsig : collect_signature g cu = .ok sig)
    (hprops : props.find?
      (fun kv => !((sig.params.map (fun p => p.uri)).contains kv.1)) = none)
    (hops : ops.findSome? (opError g (sig.obj_params.map (fun p => p.uri))) = none)
    (hres : ∀ q ∈ sig.obj_params, reservedTy q.title = false) :
    ∀ ty, reservedTy ty = true →
      (update_object g uri t d props (some ops)).2.arcs.filter (fun a => a.type == ty) =
        g.arcs.filter (fun a => a.type == ty) := by
  intro ty hty
  obtain ⟨ext, harcs, hext⟩ :=
    update_object_arcs_decomp g uri t d props ops cu sig ob hobj hrow hcune hsig hprops hops
  rw [harcs, List.filter_append]
  have hextnil : ext.filter (fun a => a.type == ty) = [] := by
    rw [List.filter_eq_nil_iff]
    intro a ha hc
    obtain ⟨op, hop, htyp, hsh⟩ := hext a ha
    obtain ⟨⟨q, hq, hquri⟩, -⟩ := opsValidated_mem hops hop
    have hreserved : reservedTy a.type = true := by
      rw [beq_iff_eq.mp hc]
      exact hty
    rcases htyp with htyp | htyp
    · have hrt := (relTitleOf_sig hwf hsig hq).1
      rw [htyp, ← hquri, hrt, hres q hq] at hreserved
      cases hreserved
    · rw [htyp] at hreserved
      exact absurd hreserved (by decide)
  rw [hextnil, List.append_nil, reconDelFold_arcs_eq, List.filter_filter]
  apply List.filter_congr
  intro a ha
  by_cases hcc : (a.type == ty) = true
  · rw [hcc, Bool.true_and]
    by_cases hkeep : ((currentRels g uri).any
        (fun r => delDecision sig (opKeys ops) r && r.arcId == a.id)) = true
    · exfalso
      obtain ⟨r, hr, hrc⟩ := List.any_eq_true.mp hkeep
      rw [Bool.and_eq_true, beq_iff_eq] at hrc
      obtain ⟨p, hp, hptitle, -, -⟩ := delRow_title hwf ha hr hrc.1 hrc.2
      have : reservedTy a.type = true := by
        rw [beq_iff_eq.mp hcc]
        exact hty
      rw [hptitle, hres p hp] at this
      cases this
    · rw [Bool.eq_false_iff.mpr hkeep]
      rfl
  · rw [Bool.eq_false_iff.mpr hcc, Bool.false_and]

/-! ## C6: the reconciler's authority over edges -/

/-- C6 (counterexample): the reconciler's creation loop does not check
the target's label. On `gClassTarget`, reconciling the Object `o` against
the desired list `[(p, t, 1)]` creates the edge `o -rel-> t` even though
`t` is a `Class`-labeled node, refuting "never creates an edge whose
other endpoint is not a node labeled Object". -/
theorem C6_cex :
    (⟨10, "rel", "o", "t"⟩ : Arc) ∈
      (update_object gClassTarget "o" none none []
        (some [⟨"p", "t", 1⟩])).2.arcs ∧
    (⟨10, "rel", "o", "t"⟩ : Arc) ∉ gClassTarget.arcs ∧
    get_node_by_uri gClassTarget "t" = some ⟨"t", "t", "", "Class"⟩ := by
  refine ⟨by decide, by decide, rfl⟩

/-- C6 (amended): on a well-formed store, for a validated `update_object`
run, every edge the reconciliation deletes is incident to the object, is
typed with the title of some object property of the class's resolved
signature, and has an Object-labeled node at its other endpoint; and
whenever no object property is titled with a reserved schema type, the
SUBCLASSOF, DOMAIN, RANGE and INSTANCEOF arc sets are unchanged by the
whole call. (The deletion half of the original claim holds; the creation
half fails because created edges' targets are not label-checked, see the
counterexample.) -/
theorem C6_reconciler_frame (g : Graph) (uri : String) (t d : Option String)
    (props : List (String × Value)) (ops : List DesiredRel) (cu : String) (sig : Signature)
    (ob : TNode) (hwf : Wf g)
    (hobj : get_object g uri = some ob)
    (hrow : (objectClassRows g uri).head? = some cu)
    (hcune : (cu == "") = false)
    (hsig : collect_signature g cu = .ok sig)
    (hprops : props.find?
      (fun kv => !((sig.params.map (fun p => p.uri)).contains kv.1)) = none)
    (hops : ops.findSome? (opError g (sig.obj_params.map (fun p => p.uri))) = none)
    (hres : ∀ q ∈ sig.obj_params, reservedTy q.title = false) :
    (∀ a ∈ g.arcs, a ∉ (update_object g uri t d props (some ops)).2.arcs →
      (a.fromUri = uri ∨ a.toUri = uri) ∧
      (∃ p ∈ sig.obj_params, a.type = p.title) ∧
      (∃ n ∈ g.nodes, n.label = "Object" ∧
        n.uriKey = some (if a.fromUri = uri then a.toUri else a.fromUri))) ∧
    (∀ ty, reservedTy ty = true →
      (update_object g uri t d props (some ops)).2.arcs.filter (fun a => a.type == ty) =
        g.arcs.filter (fun a => a.type == ty)) := by
  obtain ⟨ext, harcs, hext⟩ :=
    update_object_arcs_decomp g uri t d props ops cu sig ob hobj hrow hcune hsig hprops hops
  constructor
  · intro a ha hnot
    have hnd : a ∉ (reconDelFold sig (opKeys ops) g (currentRels g uri)).arcs := by
      intro hc
      exact hnot (by rw [harcs]; exact List.mem_append_left ext hc)
    obtain ⟨p, hp, h1, h2, h3⟩ := delFold_deleted_arc hwf ha hnd
    exact ⟨h2, ⟨p, hp, h1⟩, h3⟩
  · exact update_object_reserved_filter g uri t d props ops cu sig ob hwf hobj hrow
      hcune hsig hprops hops hres

theorem C6_witness :
    (update_object gRecon "o" none none []
      (some [⟨"r1", "t1", 1⟩, ⟨"r2", "t2", -1⟩])).2.arcs.filter
        (fun a => a.type == "INSTANCEOF") =
      gRecon.arcs.filter (fun a => a.type == "INSTANCEOF") :=
  (C6_reconciler_frame gRecon "o" none none [] [⟨"r1", "t1", 1⟩, ⟨"r2", "t2", -1⟩] "c"
    ⟨[], [⟨"knows", "r1", "c", 1⟩, ⟨"likes", "r2", "c", 1⟩]⟩ ⟨"o", "o", "", "Object"⟩
    (by decide) rfl rfl rfl rfl rfl rfl (by decide)).2 "INSTANCEOF" (by decide)

/-! ## The node map of `update_node` -/

theorem update_node_nodes_updMap (g : Graph) (u : String) (params : List (String × Value)) :
    (update_node g u params).2.nodes =
      g.nodes.map (updMap u (params.filter (fun kv => kv.1 != "uri" && kv.1 != "label"))) :=
  update_node_nodes_shape g u params

theorem updMap_label (uri : String) (delta : List (String × Value)) (n : Node) :
    (updMap uri delta n).label = n.label := by
  rw [updMap]
  by_cases h : (n.matchesUri uri) = true
  · rw [if_pos h]
  · rw [if_neg h]

theorem updMap_uriVal {delta : List (String × Value)}
    (hd : ∀ kv ∈ delta, kv.1 ≠ "uri") (uri : String) (n : Node) :
    (updMap uri delta n).uriVal = n.uriVal := by
  rw [updMap]
  by_cases h : (n.matchesUri uri) = true
  · rw [if_pos h]
    show getProp (mergeProps n.props delta) "uri" = n.uriVal
    rw [getProp_mergeProps_of_not_mem hd]
    rfl
  · rw [if_neg h]

theorem filtered_delta_no_uri (params : List (String × Value)) :
    ∀ kv ∈ params.filter (fun kv => kv.1 != "uri" && kv.1 != "label"), kv.1 ≠ "uri" := by
  intro kv hkv
  have hc := List.of_mem_filter hkv
  rw [Bool.and_eq_true, bne_iff_ne] at hc
  exact hc.1

theorem updMap_fix {g : Graph} (hwf : Wf g) {uri : String} {n0 : Node}
    (hfind : g.nodes.find? (fun n => n.matchesUri uri) = some n0)
    (hlab0 : n0.label = "Object") (delta : List (String × Value)) :
    ∀ n ∈ g.nodes, ¬ n.label = "Object" → updMap uri delta n = n := by
  intro n hn hnl
  by_cases h : (n.matchesUri uri) = true
  · exfalso
    have hk : n.uriKey = some uri := uriKey_eq_some_iff.mpr (matchesUri_iff.mp h)
    have hfind2 := find?_matchesUri_eq hwf.2.1 hn hk
    rw [hfind] at hfind2
    apply hnl
    rw [← Option.some.inj hfind2]
    exact hlab0
  · rw [updMap, if_neg h]

theorem any_matchesUri_of_not_isNone {g : Graph} {u : String}
    (h : (get_node_by_uri g u).isNone = false) :
    g.nodes.any (fun n => n.matchesUri u) = true := by
  rw [get_node_by_uri] at h
  cases hf : g.nodes.find? (fun n => n.matchesUri u) with
  | none =>
    rw [hf] at h
    cases h
  | some n =>
    have hp0 := List.find?_some hf
    have hp : n.matchesUri u = true := hp0
    exact List.any_eq_true.mpr ⟨n, List.mem_of_find?_eq_some hf, hp⟩

theorem any_matchesUri_of_find? {g : Graph} {u : String} {n0 : Node}
    (hfind : g.nodes.find? (fun n => n.matchesUri u) = some n0) :
    g.nodes.any (fun n => n.matchesUri u) = true := by
  have hp0 := List.find?_some hfind
  have hp : n0.matchesUri u = true := hp0
  exact List.any_eq_true.mpr ⟨n0, List.mem_of_find?_eq_some hfind, hp⟩

/-! ## Postconditions of a validated `update_object` call -/

/-- After a validated call, the nodes are the `updMap` image of the old
nodes, the arcs are the deletion pass's survivors followed by the created
arcs, every created arc realises one desired relationship, and every
desired relationship has a realising arc in the final store. -/
theorem update_object_call_post (g : Graph) (uri : String) (t d : Option String)
    (props : List (String × Value)) (ops : List DesiredRel) (cu : String) (sig : Signature)
    (ob : TNode) (hwf : Wf g)
    (hobj : get_object g uri = some ob)
    (hrow : (objectClassRows g uri).head? = some cu)
    (hcune : (cu == "") = false)
    (hsig : collect_signature g cu = .ok sig)
    (hprops : props.find?
      (fun kv => !((sig.params.map (fun p => p.uri)).contains kv.1)) = none)
    (hops : ops.findSome? (opError g (sig.obj_params.map (fun p => p.uri))) = none)
    (htne : ∀ q ∈ sig.obj_params, ¬ q.title = "") :
    ∃ ext : List Arc,
      (update_object g uri t d props (some ops)).2.nodes =
        g.nodes.map (updMap uri ((mergeProps (baseParams t d) props).filter
          (fun kv => kv.1 != "uri" && kv.1 != "label"))) ∧
      (update_object g uri t d props (some ops)).2.arcs =
        (reconDelFold sig (opKeys ops) g (currentRels g uri)).arcs ++ ext ∧
      (∀ a ∈ ext, ∃ op ∈ ops, desiredShape (relTitleOf g op.relation_uri) uri op a) ∧
      (∀ op ∈ ops, ∃ a ∈ (update_object g uri t d props (some ops)).2.arcs,
        desiredShape (relTitleOf g op.relation_uri) uri op a) := by
  obtain ⟨n0, hfind0, hlab0, -⟩ := get_object_some_inv hobj
  have hg1nodes : (reconDelFold sig (opKeys ops) g (currentRels g uri)).nodes = g.nodes :=
    (reconDelFold_frame sig (opKeys ops) (currentRels g uri) g).1
  have hu1 : (reconDelFold sig (opKeys ops) g (currentRels g uri)).nodes.any
      (fun n => n.matchesUri uri) = true := by
    rw [hg1nodes]
    exact any_matchesUri_of_find? hfind0
  have htgt1 : ∀ op ∈ ops,
      (reconDelFold sig (opKeys ops) g (currentRels g uri)).nodes.any
        (fun n => n.matchesUri op.obj_uri) = true := by
    intro op hop
    rw [hg1nodes]
    exact any_matchesUri_of_not_isNone (opsValidated_mem hops hop).2
  have hne1 : ∀ op ∈ ops,
      (relTitleOf (reconDelFold sig (opKeys ops) g (currentRels g uri)) op.relation_uri
        == "") = false := by
    intro op hop
    obtain ⟨⟨q, hq, hquri⟩, -⟩ := opsValidated_mem hops hop
    rw [relTitleOf_nodes_congr hg1nodes, ← hquri, (relTitleOf_sig hwf hsig hq).1]
    exact Bool.eq_false_iff.mpr (fun hc => htne q hq (beq_iff_eq.mp hc))
  obtain ⟨ext, hfold, hext, hop2, hnd, hbound⟩ := reconCreFold_spec uri ops
    (reconDelFold sig (opKeys ops) g (currentRels g uri)) hu1 htgt1 hne1
  have hrun := update_object_run g uri t d props ops cu sig ob hobj hrow hcune hsig hprops hops
  rw [hfold] at hrun
  have hcall : update_object g uri t d props (some ops) =
      update_node (⟨(reconDelFold sig (opKeys ops) g (currentRels g uri)).nodes,
        (reconDelFold sig (opKeys ops) g (currentRels g uri)).arcs ++ ext,
        (reconDelFold sig (opKeys ops) g (currentRels g uri)).nextId + ext.length,
        (reconDelFold sig (opKeys ops) g (currentRels g uri)).uriSeed,
        (reconDelFold sig (opKeys ops) g (currentRels g uri)).arcCreations + ext.length,
        (reconDelFold sig (opKeys ops) g (currentRels g uri)).arcDeletions⟩ : Graph)
        uri (mergeProps (baseParams t d) props) := hrun
  refine ⟨ext, ?_, ?_, ?_, ?_⟩
  · rw [hcall, update_node_nodes_updMap]
    show (reconDelFold sig (opKeys ops) g (currentRels g uri)).nodes.map _ = _
    rw [hg1nodes]
  · rw [hcall, (update_node_frame _ uri (mergeProps (baseParams t d) props)).1]
  · intro a ha
    obtain ⟨-, op, hop, hshape⟩ := hext a ha
    refine ⟨op, hop, ?_⟩
    rw [← relTitleOf_nodes_congr hg1nodes op.relation_uri]
    exact hshape
  · intro op hop
    obtain ⟨a, ha, hshape⟩ := hop2 op hop
    refine ⟨a, ?_, ?_⟩
    · rw [hcall, (update_node_frame _ uri (mergeProps (baseParams t d) props)).1]
      exact ha
    · rw [← relTitleOf_nodes_congr hg1nodes op.relation_uri]
      exact hshape

/-- A current-relationship row whose key triple is desired is never
deleted (titles pairwise distinct). -/
theorem delDecision_false_of_desired {sig : Signature} {ops : List DesiredRel}
    (htnd : (sig.obj_params.map ObjParam.title).Nodup)
    {q : ObjParam} (hq : q ∈ sig.obj_params)
    {op : DesiredRel} (hop : op ∈ ops) (hquri : q.uri = op.relation_uri)
    {tu : String} {dir : Int} (htu : tu = op.obj_uri) (hdir : dir = op.direction)
    {aty : String} (haty : aty = q.title) (aid : Nat) :
    delDecision sig (opKeys ops) (⟨aty, tu, aid, dir⟩ : CurRel) = false := by
  subst haty htu hdir
  show (match sig.obj_params.find? (fun p => p.title == q.title) with
    | some p => !((opKeys ops).contains (p.uri, op.obj_uri, op.direction))
    | none => false) = false
  rw [find?_title_self htnd hq]
  show (!((opKeys ops).contains (q.uri, op.obj_uri, op.direction))) = false
  have hmem : (q.uri, op.obj_uri, op.direction) ∈ opKeys ops := by
    rw [hquri, opKeys]
    exact List.mem_map.mpr ⟨op, hop, rfl⟩
  have hcont : ((opKeys ops).contains (q.uri, op.obj_uri, op.direction)) = true :=
    List.elem_eq_true_of_mem hmem
  rw [hcont]
  rfl

/-! ## C2: reconciliation idempotence -/

/-- C2 (amended): on a well-formed store, for a validated `update_object`
run whose desired list is normalised — directions are `1`/`-1`,
self-referencing entries use direction `1`, and signature titles are
nonempty, pairwise distinct and not reserved schema types — repeating the
call with the same arguments performs no edge churn: the second call's
arc list and both edge counters equal the first call's. (Without the
normalisation conditions the claim fails, see the counterexample: a
self-loop desired with direction `-1` is deleted and recreated by every
repeated call.) -/
theorem C2_reconcile_idempotent (g : Graph) (uri : String) (t d : Option String)
    (props : List (String × Value)) (ops : List DesiredRel) (cu : String) (sig : Signature)
    (ob : TNode) (hwf : Wf g)
    (hobj : get_object g uri = some ob)
    (hrow : (objectClassRows g uri).head? = some cu)
    (hcune : (cu == "") = false)
    (hsig : collect_signature g cu = .ok sig)
    (hprops : props.find?
      (fun kv => !((sig.params.map (fun p => p.uri)).contains kv.1)) = none)
    (hops : ops.findSome? (opError g (sig.obj_params.map (fun p => p.uri))) = none)
    (hres : ∀ q ∈ sig.obj_params, reservedTy q.title = false)
    (htne : ∀ q ∈ sig.obj_params, ¬ q.title = "")
    (htnd : (sig.obj_params.map ObjParam.title).Nodup)
    (hdir : ∀ op ∈ ops, op.direction = 1 ∨ op.direction = -1)
    (hself : ∀ op ∈ ops, op.obj_uri = uri → op.direction = 1) :
    (update_object (update_object g uri t d props (some ops)).2
        uri t d props (some ops)).2.arcs =
      (update_object g uri t d props (some ops)).2.arcs ∧
    (update_object (update_object g uri t d props (some ops)).2
        uri t d props (some ops)).2.arcCreations =
      (update_object g uri t d props (some ops)).2.arcCreations ∧
    (update_object (update_object g uri t d props (some ops)).2
        uri t d props (some ops)).2.arcDeletions =
      (update_object g uri t d props (some ops)).2.arcDeletions := by
  obtain ⟨n0, hfind0, hlab0, -⟩ := get_object_some_inv hobj
  obtain ⟨ext, hG1nodes, hG1arcs, hextshape, hcover⟩ := update_object_call_post g uri t d
    props ops cu sig ob hwf hobj hrow hcune hsig hprops hops htne
  have hFuri : ∀ n : Node, (updMap uri ((mergeProps (baseParams t d) props).filter
      (fun kv => kv.1 != "uri" && kv.1 != "label")) n).uriVal = n.uriVal :=
    updMap_uriVal (filtered_delta_no_uri (mergeProps (baseParams t d) props)) uri
  have hFlab : ∀ n : Node, (updMap uri ((mergeProps (baseParams t d) props).filter
      (fun kv => kv.1 != "uri" && kv.1 != "label")) n).label = n.label :=
    updMap_label uri ((mergeProps (baseParams t d) props).filter
      (fun kv => kv.1 != "uri" && kv.1 != "label"))
  have hfix := updMap_fix hwf hfind0 hlab0 ((mergeProps (baseParams t d) props).filter
    (fun kv => kv.1 != "uri" && kv.1 != "label"))
  have hrf := update_object_reserved_filter g uri t d props ops cu sig ob hwf hobj hrow
    hcune hsig hprops hops hres
  have harcS := hrf "SUBCLASSOF" (by decide)
  have harcD := hrf "DOMAIN" (by decide)
  have harcR := hrf "RANGE" (by decide)
  have harcI := hrf "INSTANCEOF" (by decide)
  have hobj2 := get_object_map_some hG1nodes hFuri hFlab hfind0 hlab0
  have hrow2 : (objectClassRows (update_object g uri t d props (some ops)).2 uri).head? =
      some cu := by
    rw [objectClassRows_congr hG1nodes hFuri harcI]
    exact hrow
  have hsig2 : collect_signature (update_object g uri t d props (some ops)).2 cu =
      .ok sig := by
    rw [collect_signature_congr hG1nodes hFuri hFlab hfix harcS harcD harcR]
    exact hsig
  have hops2 : ops.findSome?
      (opError (update_object g uri t d props (some ops)).2
        (sig.obj_params.map (fun p => p.uri))) = none := by
    rw [findSome?_congr_mem (fun op _ =>
      opError_congr hG1nodes hFuri (sig.obj_params.map (fun p => p.uri)) op)]
    exact hops
  have hrtG1 : ∀ op ∈ ops,
      relTitleOf (update_object g uri t d props (some ops)).2 op.relation_uri =
        relTitleOf g op.relation_uri := by
    intro op hop
    obtain ⟨⟨q, hq, hquri⟩, -⟩ := opsValidated_mem hops hop
    obtain ⟨hrt, dnode, hdmem, hdkey, hdlab⟩ := relTitleOf_sig hwf hsig hq
    have hdfind : g.nodes.find? (fun n => n.matchesUri op.relation_uri) = some dnode := by
      rw [← hquri]
      exact find?_matchesUri_eq hwf.2.1 hdmem hdkey
    exact relTitleOf_map_congr hG1nodes hFuri hdfind
      (hfix dnode hdmem (by rw [hdlab]; decide))
  have hdel2 : ∀ r ∈ currentRels (update_object g uri t d props (some ops)).2 uri,
      delDecision sig (opKeys ops) r = false := by
    intro r hr
    obtain ⟨a, haG1, hcase⟩ := mem_currentRels.mp hr
    have hrid : r.arcId = a.id := by
      rcases hcase with ⟨-, t', -, -, hreq⟩ | ⟨-, -, t', -, -, hreq⟩ <;> rw [hreq]
    rw [hG1arcs] at haG1
    rcases List.mem_append.mp haG1 with hag1 | haext
    · obtain ⟨hag, hkeep⟩ :=
        (reconDelFold_arcs_mem sig (opKeys ops) (currentRels g uri) g).mp hag1
      have hrg : r ∈ currentRels g uri := by
        apply mem_currentRels.mpr
        refine ⟨a, hag, ?_⟩
        rcases hcase with ⟨hfrom, t', htfind, htlab, hreq⟩ |
          ⟨hfrom, hto, t', htfind, htlab, hreq⟩
        · rw [find?_nodes_map hG1nodes hFuri] at htfind
          obtain ⟨t0, ht0find, ht0map⟩ := Option.map_eq_some'.mp htfind
          refine Or.inl ⟨hfrom, t0, ht0find, ?_, hreq⟩
          rw [← hFlab t0, ht0map]
          exact htlab
        · rw [find?_nodes_map hG1nodes hFuri] at htfind
          obtain ⟨t0, ht0find, ht0map⟩ := Option.map_eq_some'.mp htfind
          refine Or.inr ⟨hfrom, hto, t0, ht0find, ?_, hreq⟩
          rw [← hFlab t0, ht0map]
          exact htlab
      rcases hdd : delDecision sig (opKeys ops) r with _ | _
      · rfl
      · exact absurd hrid (hkeep r hrg hdd)
    · obtain ⟨op, hop, hshape⟩ := hextshape a haext
      obtain ⟨⟨q, hq, hquri⟩, -⟩ := opsValidated_mem hops hop
      have hrt : relTitleOf g op.relation_uri = q.title := by
        rw [← hquri]
        exact (relTitleOf_sig hwf hsig hq).1
      have hat : a.type = q.title := by
        rw [← hrt]
        exact hshape.1
      rcases hdir op hop with hd1 | hdm1
      · have hd1b : (op.direction == 1) = true := by
          rw [hd1]
          decide
        have hsh2 : a.fromUri = uri ∧ a.toUri = op.obj_uri := by
          have h2 := hshape.2
          rw [if_pos hd1b] at h2
          exact h2
        rcases hcase with ⟨hfrom, t', htfind, htlab, hreq⟩ |
          ⟨hfrom, hto, t', htfind, htlab, hreq⟩
        · rw [hreq]
          exact delDecision_false_of_desired htnd hq hop hquri hsh2.2 hd1.symm hat a.id
        · exact absurd hsh2.1 hfrom
      · have hobj_ne : ¬ op.obj_uri = uri := by
          intro hc
          have h1 := hself op hop hc
          rw [h1] at hdm1
          exact absurd hdm1 (by decide)
        have hd1b : (op.direction == 1) = false := by
          rw [hdm1]
          decide
        have hsh2 : a.fromUri = op.obj_uri ∧ a.toUri = uri := by
          have h2 := hshape.2
          rw [if_neg (Bool.eq_false_iff.mp hd1b)] at h2
          exact h2
        rcases hcase with ⟨hfrom, t', htfind, htlab, hreq⟩ |
          ⟨hfrom, hto, t', htfind, htlab, hreq⟩
        · exact absurd (hsh2.1.symm.trans hfrom) hobj_ne
        · rw [hreq]
          exact delDecision_false_of_desired htnd hq hop hquri hsh2.1 hdm1.symm hat a.id
  have hrun2 := update_object_run (update_object g uri t d props (some ops)).2 uri t d
    props ops cu sig _ hobj2 hrow2 hcune hsig2 hprops hops2
  have hdf2 : reconDelFold sig (opKeys ops) (update_object g uri t d props (some ops)).2
      (currentRels (update_object g uri t d props (some ops)).2 uri) =
      (update_object g uri t d props (some ops)).2 :=
    reconDelFold_id sig (opKeys ops) (update_object g uri t d props (some ops)).2 hdel2
  have hcf2 : reconCreFold uri (update_object g uri t d props (some ops)).2 ops =
      (.ok (), (update_object g uri t d props (some ops)).2) := by
    apply reconCreFold_id
    intro op hop
    obtain ⟨a, ha, hshape⟩ := hcover op hop
    refine ⟨a, ha, ?_⟩
    rw [hrtG1 op hop]
    exact hshape
  rw [hdf2, hcf2] at hrun2
  have hcall2 : update_object (update_object g uri t d props (some ops)).2 uri t d props
      (some ops) = update_node (update_object g uri t d props (some ops)).2 uri
        (mergeProps (baseParams t d) props) := hrun2
  rw [hcall2]
  exact ⟨(update_node_frame _ uri (mergeProps (baseParams t d) props)).1,
    (update_node_frame _ uri (mergeProps (baseParams t d) props)).2.2.2.1,
    (update_node_frame _ uri (mergeProps (baseParams t d) props)).2.2.2.2⟩

/-- C2 (counterexample): reconciliation is not idempotent as claimed. On
`gSelfLoop`, desiring the self-loop `(p, o, -1)` makes every repeated
identical call delete the loop edge (its stored row reads direction `1`,
which does not match the desired `-1`) and recreate it under a fresh id:
the second call performs one deletion and one creation, and the edge set
differs from the first call's. -/
theorem C2_cex :
    (update_object (update_object gSelfLoop "o" none none []
        (some [⟨"p", "o", -1⟩])).2 "o" none none [] (some [⟨"p", "o", -1⟩])).2.arcs ≠
      (update_object gSelfLoop "o" none none [] (some [⟨"p", "o", -1⟩])).2.arcs ∧
    (update_object (update_object gSelfLoop "o" none none []
        (some [⟨"p", "o", -1⟩])).2 "o" none none []
        (some [⟨"p", "o", -1⟩])).2.arcCreations =
      (update_object gSelfLoop "o" none none []
        (some [⟨"p", "o", -1⟩])).2.arcCreations + 1 ∧
    (update_object (update_object gSelfLoop "o" none none []
        (some [⟨"p", "o", -1⟩])).2 "o" none none []
        (some [⟨"p", "o", -1⟩])).2.arcDeletions =
      (update_object gSelfLoop "o" none none []
        (some [⟨"p", "o", -1⟩])).2.arcDeletions + 1 := by
  refine ⟨by decide, by decide, by decide⟩

theorem C2_witness :
    (update_object (update_object gRecon "o" none none []
        (some [⟨"r1", "t1", 1⟩, ⟨"r2", "t2", -1⟩])).2 "o" none none []
        (some [⟨"r1", "t1", 1⟩, ⟨"r2", "t2", -1⟩])).2.arcs =
      (update_object gRecon "o" none none []
        (some [⟨"r1", "t1", 1⟩, ⟨"r2", "t2", -1⟩])).2.arcs :=
  (C2_reconcile_idempotent gRecon "o" none none [] [⟨"r1", "t1", 1⟩, ⟨"r2", "t2", -1⟩]
    "c" ⟨[], [⟨"knows", "r1", "c", 1⟩, ⟨"likes", "r2", "c", 1⟩]⟩ ⟨"o", "o", "", "Object"⟩
    (by decide) rfl rfl rfl rfl rfl rfl (by decide) (by decide) (by decide)
    (by decide) (by decide)).1

end Onto
